import Mathlib

/-!
Verification of the TerminologiaOberta conversion scripts.

This file gives a shallow embedding, in Lean 4, of the record extraction,
filtering and normalization pipeline implemented by the four Python scripts
`TO2TBX.py`, `TO2TBX-GUI.py`, `TO2tabtxt.py` and `TO2tabtxt-GUI.py`.
Python strings are modelled as `List Char`; Python `None`-able values as
`Option`; Python sets as duplicate-free lists (`List.dedup`) with
membership semantics; Python dicts as association lists with unique keys;
a Python `NameError` as an explicit error value threaded through `Except`.

Definitions are named after the source functions they embed, prefixed by
the script they come from (`TBX` for TO2TBX.py, `TBXGUI` for TO2TBX-GUI.py,
`Tabtxt` for TO2tabtxt.py, `TabtxtGUI` for TO2tabtxt-GUI.py).
-/

/-- Convert a Lean string literal to the `List Char` representation used
throughout this development. -/
def pys (s : String) : List Char := s.toList

/-- The ASCII whitespace characters recognised by Python `str.strip` and by
the regex class `\s` (space, tab, newline, carriage return, vertical tab,
form feed). -/
def pyIsSpace (c : Char) : Bool :=
  c.toNat = 32 || c.toNat = 9 || c.toNat = 10 || c.toNat = 13 ||
  c.toNat = 11 || c.toNat = 12

/-- ASCII lowercasing of one character, as Python `str.lower` acts on the
ASCII range (the attribute values handled by the scripts). -/
def pyLowerChar (c : Char) : Char :=
  if 65 ≤ c.toNat ∧ c.toNat ≤ 90 then Char.ofNat (c.toNat + 32) else c

/-- Python `str.lower`. -/
def pyLower (s : List Char) : List Char := s.map pyLowerChar

/-- Python `str.lstrip` (with no argument): drop leading whitespace. -/
def pyLStrip (s : List Char) : List Char := s.dropWhile pyIsSpace

/-- Python `str.rstrip` (with no argument): drop trailing whitespace. -/
def pyRStrip (s : List Char) : List Char := (s.reverse.dropWhile pyIsSpace).reverse

/-- Python `str.strip` (with no argument): drop whitespace at both ends.
Stripping the right end first and then the left end is equivalent to
Python stripping both ends at once. -/
def pyStrip (s : List Char) : List Char := pyLStrip (pyRStrip s)

/-- Helper for `pySplitChar`: accumulate the current piece (reversed). -/
def pySplitCharAux (sep : Char) : List Char → List Char → List (List Char)
  | [], acc => [acc.reverse]
  | c :: cs, acc =>
    if c = sep then acc.reverse :: pySplitCharAux sep cs []
    else pySplitCharAux sep cs (c :: acc)

/-- Python `str.split(sep)` for a one-character separator: split at every
occurrence, keeping empty pieces. -/
def pySplitChar (sep : Char) (s : List Char) : List (List Char) :=
  pySplitCharAux sep s []

/-- Python `str.replace(a, b)` for one-character arguments. -/
def pyReplaceChar (s : List Char) (a b : Char) : List Char :=
  s.map (fun c => if c = a then b else c)

/-! Term Cleaner: the regex substitution
`re.sub(r'\s*\(.*?\)|\s*\[.*?\]', '', term)` shared verbatim by all four
scripts, followed by `strip` and splitting on the `|` separator. -/

/-- Match the non-greedy `.*?` part followed by the closing bracket: return
the input after the first occurrence of `close`; fail on a newline first
(`.` does not match a newline) or at the end of input. -/
def annotFindClose (close : Char) : List Char → Option (List Char)
  | [] => none
  | c :: cs =>
    if c = close then some cs
    else if c = '\n' then none
    else annotFindClose close cs

/-- Try to match `\s*OP.*?CL` at the start of `s` (with `OP`/`CL` a literal
bracket pair); on success return the remaining input after the match.
`\s*` is greedy but is followed by the literal `OP`, so it can only match
the full leading whitespace run. -/
def annotMatchAt (opC clC : Char) (s : List Char) : Option (List Char) :=
  match s.dropWhile pyIsSpace with
  | [] => none
  | c :: cs => if c = opC then annotFindClose clC cs else none

/-- Try to match the alternation `\s*\(.*?\)|\s*\[.*?\]` at the start of
`s`, trying the parenthesis alternative first, as the regex engine does. -/
def matchAnnot (s : List Char) : Option (List Char) :=
  match annotMatchAt '(' ')' s with
  | some rest => some rest
  | none => annotMatchAt '[' ']' s

/-- The scanning loop of `re.sub` with replacement `''`: at each position
try to match the pattern; on a match, emit nothing and continue after the
match, otherwise emit the character and move on.  The fuel argument only
serves termination: every match consumes at least two characters, so fuel
equal to the length of the list is never exhausted on a non-empty list and
the function agrees with the unbounded scan. -/
def removeAnnotsFuel : Nat → List Char → List Char
  | 0, s => s
  | _ + 1, [] => []
  | fuel + 1, c :: cs =>
    match matchAnnot (c :: cs) with
    | some rest => removeAnnotsFuel fuel rest
    | none => c :: removeAnnotsFuel fuel cs

/-- `re.sub(r'\s*\(.*?\)|\s*\[.*?\]', '', s)`. -/
def removeAnnots (s : List Char) : List Char := removeAnnotsFuel s.length s

/-- `clean_and_split_term` (TO2TBX.py lines 30-40, TO2tabtxt.py lines 7-32,
identical in the two GUI scripts): strip bracketed/parenthesised text with
its preceding whitespace, strip the remainder, split on `|`, strip every
piece, and drop empty pieces. -/
def clean_and_split_term (term : List Char) : List (List Char) :=
  let cleaned_term := pyStrip (removeAnnots term)
  if cleaned_term.contains '|' then
    ((pySplitChar '|' cleaned_term).map pyStrip).filter (fun t => !t.isEmpty)
  else
    if !cleaned_term.isEmpty then [cleaned_term] else []

/-! Filter Normalizer. -/

/-- `normalize_filter_list` (TO2TBX.py lines 42-48): `None`/empty input
gives `None`; otherwise strip and lowercase each non-blank member and
collect the results into a set; an empty set again gives `None`.  The
Python set is modelled as the deduplicated list. -/
def normalize_filter_list (filter_list : List (List Char)) : Option (List (List Char)) :=
  if filter_list.isEmpty then none
  else
    let normalized_set :=
      ((filter_list.filter (fun f => !(pyStrip f).isEmpty)).map
        (fun f => pyLower (pyStrip f))).dedup
    if normalized_set.isEmpty then none else some normalized_set

/-- The separator class of the regex `[,\s\n]+` used by the GUI variants:
a comma or a whitespace character. -/
def reSepChar (c : Char) : Bool := c.toNat = 44 || pyIsSpace c

/-- Helper for `reSplitSep`: `acc` is the current piece (reversed) and the
flag records whether the previous character was a separator, so that a run
of consecutive separators produces a single split. -/
def reSplitAux : List Char → List Char → Bool → List (List Char)
  | [], acc, _ => [acc.reverse]
  | c :: cs, acc, lastSep =>
    if reSepChar c then
      if lastSep then reSplitAux cs [] true
      else acc.reverse :: reSplitAux cs [] true
    else reSplitAux cs (c :: acc) false

/-- `re.split(r'[,\s\n]+', s)`: split on maximal non-empty runs of
separator characters, keeping the (possibly empty) pieces before the first
run and after the last run. -/
def reSplitSep (s : List Char) : List (List Char) := reSplitAux s [] false

/-- `normalize_filter_list` of the GUI scripts (TO2TBX-GUI.py lines 43-51,
TO2tabtxt-GUI.py lines 34-48), which takes a free-text string, splits it
with `re.split(r'[,\s\n]+', ...)` and then normalizes the tokens as the
list variant does. -/
def normalize_filter_str (filter_str : List Char) : Option (List (List Char)) :=
  if filter_str.isEmpty then none
  else
    let filter_list := reSplitSep filter_str
    let normalized_set :=
      ((filter_list.filter (fun f => !(pyStrip f).isEmpty)).map
        (fun f => pyLower (pyStrip f))).dedup
    if normalized_set.isEmpty then none else some normalized_set

/-! Python dict and set helpers. -/

/-- Python dict lookup `d.get(k)` on an association list. -/
def dictGet {β : Type} : List (List Char × β) → List Char → Option β
  | [], _ => none
  | (k, v) :: rest, key => if k = key then some v else dictGet rest key

/-- Python dict lookup `d.get(k, dflt)`. -/
def dictGetD {β : Type} (m : List (List Char × β)) (key : List Char) (dflt : β) : β :=
  (dictGet m key).getD dflt

/-- Python `k in d` for a dict. -/
def dictMem {β : Type} (m : List (List Char × β)) (key : List Char) : Bool :=
  (dictGet m key).isSome

/-- Python dict assignment `d[k] = v`: overwrite the existing binding or
append a new one (keys are unique in every dict this file builds). -/
def dictSet {β : Type} : List (List Char × β) → List Char → β → List (List Char × β)
  | [], key, v => [(key, v)]
  | (k, w) :: rest, key, v =>
    if k = key then (key, v) :: rest else (k, w) :: dictSet rest key v

/-- Python `d[k].append(x)` repeated for each member of `ts` (the key is
always present when the scripts do this). -/
def dictAppend {α : Type} (m : List (List Char × List α)) (key : List Char)
    (ts : List α) : List (List Char × List α) :=
  m.map (fun kv => if kv.1 = key then (kv.1, kv.2 ++ ts) else kv)

/-- Truthiness of an optional Python set (a `None` or empty set is falsy). -/
def setTruthy (o : Option (List (List Char))) : Bool := !(o.getD []).isEmpty

/-- Truthiness of an optional Python list (a `None` or empty list is falsy). -/
def optTruthy (o : Option (List (List Char))) : Bool := !(o.getD []).isEmpty

/-! Data model of the input document (§6 of the input shape): one `fitxa`
element per glossary entry, with optional `num` attribute, an optional
`areatematica` child, `definicio` children and `denominacio` children.
`Option` distinguishes a missing element/attribute from an empty one where
the scripts' `findtext` defaults make that observable. -/

/-- One `denominacio` element: the raw `llengua`, `categoria`, `tipus` and
`jerarquia` attribute values (empty when the attribute is missing, matching
`.get(attr, '')`; `llengua` is also read without a default by TO2tabtxt.py,
where a missing attribute and an empty one behave alike for the string
comparisons performed) and the raw text content. -/
structure Denomination where
  llengua : List Char
  text : List Char
  categoria : List Char
  tipus : List Char
  jerarquia : List Char
deriving DecidableEq, Repr

/-- One `definicio` element: raw `llengua` attribute and text content. -/
structure Definicio where
  llengua : List Char
  text : List Char
deriving DecidableEq, Repr

/-- One `fitxa` element. -/
structure Fitxa where
  num : Option (List Char)
  areatematica : Option (List Char)
  definicions : List Definicio
  denominacions : List Denomination
deriving DecidableEq, Repr

/-- One term produced by the Entry Extractor, carrying the (stripped)
classification attributes of the denomination it came from. -/
structure ExtractedTerm where
  term : List Char
  category : List Char
  type : List Char
  hierarchy : List Char
deriving DecidableEq, Repr

/-- The language attribute as normalized by the TBX scripts and by
TO2tabtxt-GUI.py: `denomination.get('llengua', '').strip().lower()`. -/
def attrLangNorm (d : Denomination) : List Char := pyLower (pyStrip d.llengua)

/-! The three distinct `passes_filters` implementations. -/

/-- `passes_filters` of TO2TBX.py (lines 50-72): the category axis requires
a non-empty stripped+lowercased category starting with some prefix of the
set; the type and hierarchy axes require exact membership of the
stripped+lowercased attribute; an axis whose filter is `None` (or an empty
set) imposes nothing.  The sequential early returns of the Python code are
rendered as nested conditionals. -/
def TBX.passes_filters (category dtype djer : List Char)
    (cf tf jf : Option (List (List Char))) : Bool :=
  let step3 : Bool :=
    if setTruthy jf then
      let j := pyLower (pyStrip djer)
      if !((jf.getD []).contains j) then false else true
    else true
  let step2 : Bool :=
    if setTruthy tf then
      let t := pyLower (pyStrip dtype)
      if !((tf.getD []).contains t) then false else step3
    else step3
  if setTruthy cf then
    let c := pyLower (pyStrip category)
    if c.isEmpty || !((cf.getD []).any (fun p => p.isPrefixOf c)) then false
    else step2
  else step2

/-- `passes_filters` of TO2TBX-GUI.py (lines 53-74), textually identical to
the TO2TBX.py version. -/
def TBXGUI.passes_filters (category dtype djer : List Char)
    (cf tf jf : Option (List (List Char))) : Bool :=
  let step3 : Bool :=
    if setTruthy jf then
      let j := pyLower (pyStrip djer)
      if !((jf.getD []).contains j) then false else true
    else true
  let step2 : Bool :=
    if setTruthy tf then
      let t := pyLower (pyStrip dtype)
      if !((tf.getD []).contains t) then false else step3
    else step3
  if setTruthy cf then
    let c := pyLower (pyStrip category)
    if c.isEmpty || !((cf.getD []).any (fun p => p.isPrefixOf c)) then false
    else step2
  else step2

/-- The prefix-matching loop of TO2tabtxt-GUI.py's `passes_filters`
(lines 61-65): iterate the prefixes and break on the first match. -/
def prefixLoop (c : List Char) : List (List Char) → Bool
  | [] => false
  | p :: rest => if p.isPrefixOf c then true else prefixLoop c rest

/-- `passes_filters` of TO2tabtxt-GUI.py (lines 50-82): same semantics as
the TO2TBX.py version, with the category check written as an explicit loop
and placed first. -/
def TabtxtGUI.passes_filters (category dtype djer : List Char)
    (cf tf jf : Option (List (List Char))) : Bool :=
  let step3 : Bool :=
    if setTruthy jf then
      let j := pyLower (pyStrip djer)
      if !((jf.getD []).contains j) then false else true
    else true
  let step2 : Bool :=
    if setTruthy tf then
      let t := pyLower (pyStrip dtype)
      if !((tf.getD []).contains t) then false else step3
    else step3
  if setTruthy cf then
    let c := pyLower (pyStrip category)
    if c.isEmpty then false
    else if !(prefixLoop c (cf.getD [])) then false
    else step2
  else step2

/-- The Python errors the embedding makes explicit. -/
inductive PyErr where
  | nameError
deriving DecidableEq, Repr

/-- `passes_filters` of TO2tabtxt.py (lines 35-72).  It strips and
lowercases all three attributes up front; with an active type filter it
rejects only a PRESENT non-matching type (an empty attribute passes), and
then checks the hierarchy attribute against the global name
`normalized_jerarquia_filters`, which is unbound — so a non-empty
hierarchy attribute under an active type filter raises `NameError`.  The
`jf` parameter (`normalized_jerarquia_filter`) is accepted but never
used.  With an active category filter it rejects only a present category
matching no prefix. -/
def Tabtxt.passes_filters (category dtype djer : List Char)
    (cf tf jf : Option (List (List Char))) : Except PyErr Bool :=
  let c := pyLower (pyStrip category)
  let t := pyLower (pyStrip dtype)
  let j := pyLower (pyStrip djer)
  let catBlock : Except PyErr Bool :=
    if setTruthy cf then
      if !c.isEmpty then
        if !(prefixLoop c (cf.getD [])) then .ok false else .ok true
      else .ok true
    else .ok true
  if setTruthy tf then
    if !t.isEmpty && !((tf.getD []).contains t) then .ok false
    else if !j.isEmpty then .error PyErr.nameError
    else catBlock
  else catBlock

/-- The filter predicate as §4.3 of the specification words it: a
conjunction over the three axes; with an active category-prefix filter the
(stripped, lowercased) category must be non-empty and start with some
prefix of the set; with an active type or hierarchy filter the (stripped,
lowercased) attribute must be a member of the set; an axis with no filter
always accepts.  Written from the specification, for comparison with the
code's versions. -/
def specPassesFilters (category dtype djer : List Char)
    (cf tf jf : Option (List (List Char))) : Bool :=
  (match cf with
   | none => true
   | some ps =>
     let c := pyLower (pyStrip category)
     !c.isEmpty && ps.any (fun p => p.isPrefixOf c)) &&
  (match tf with
   | none => true
   | some ts => ts.contains (pyLower (pyStrip dtype))) &&
  (match jf with
   | none => true
   | some js => js.contains (pyLower (pyStrip djer)))

/-- A well-formed optional filter set: either absent or non-empty, which is
the only shape `normalize_filter_list` ever produces. -/
def FilterWF (f : Option (List (List Char))) : Prop := f ≠ some []

/-! Entry Extractor of TO2TBX.py (`xml_to_tbx`, lines 138-196). -/

/-- The extraction result for one exported entry (both TBX scripts):
identifier, stripped thematic area, the per-language definition dict and
the per-language term-list dict. -/
structure Extracted where
  id : List Char
  area : List Char
  definitions : List (List Char × List Char)
  byLang : List (List Char × List ExtractedTerm)
deriving DecidableEq, Repr

/-- Definition collection of TO2TBX.py (lines 145-151): for every
`definicio` whose normalized language is in the language set and whose
stripped text is non-empty, assign `definitions[language] = text` — a later
definition in the same language overwrites an earlier one. -/
def TBX.collectDefinitions (normLangs : List (List Char)) (defs : List Definicio) :
    List (List Char × List Char) :=
  defs.foldl
    (fun acc df =>
      let language := pyLower (pyStrip df.llengua)
      let text_content := pyStrip df.text
      if !text_content.isEmpty && normLangs.contains language then
        dictSet acc language text_content
      else acc)
    []

/-- The body of the denomination loop of TO2TBX.py (lines 163-192), as a
fold step over `(has_valid_term, denominations_by_lang)`.  A denomination
outside the language set or with blank text is skipped; one failing the
filters is skipped; otherwise `has_valid_term` is set — before the term is
cleaned, so a denomination whose cleaned term list is empty still
validates the entry — and the cleaned terms are appended to its language's
list. -/
def TBX.denomStep (normLangs : List (List Char))
    (cf tf jf : Option (List (List Char)))
    (acc : Bool × List (List Char × List ExtractedTerm)) (d : Denomination) :
    Bool × List (List Char × List ExtractedTerm) :=
  let language := attrLangNorm d
  let raw_term := pyStrip d.text
  let category := pyStrip d.categoria
  let dtype := pyStrip d.tipus
  let djer := pyStrip d.jerarquia
  if !(normLangs.contains language) || raw_term.isEmpty then acc
  else if !(TBX.passes_filters category dtype djer cf tf jf) then acc
  else
    (true,
     dictAppend acc.2 language
       ((clean_and_split_term raw_term).map
         (fun t => { term := t, category := category, type := dtype, hierarchy := djer })))

/-- The per-entry extraction of TO2TBX.py (lines 138-196): id from the
`num` attribute with positional fallback, stripped area, definitions,
the denomination loop over a dict pre-seeded with every language, and the
final validity test `if not has_valid_term: continue`. -/
def TBX.extractEntry (normLangs : List (List Char))
    (cf tf jf : Option (List (List Char))) (entry_count : Nat) (e : Fitxa) :
    Option Extracted :=
  let entry_id := e.num.getD (pys ("e") ++ (toString entry_count).toList)
  let area_tematica := pyStrip (e.areatematica.getD [])
  let definitions := TBX.collectDefinitions normLangs e.definicions
  let init := (false, normLangs.map (fun l => (l, ([] : List ExtractedTerm))))
  let r := e.denominacions.foldl (TBX.denomStep normLangs cf tf jf) init
  if r.1 then
    some { id := entry_id, area := area_tematica, definitions := definitions, byLang := r.2 }
  else none

/-! Entry Extractor of TO2TBX-GUI.py (`xml_to_tbx`, lines 127-179). -/

/-- Definition collection of TO2TBX-GUI.py (lines 134-140): same
overwrite-on-repeat semantics as TO2TBX.py, with the language set fixed to
`[sl, tl]`. -/
def TBXGUI.collectDefinitions (sl tl : List Char) (defs : List Definicio) :
    List (List Char × List Char) :=
  defs.foldl
    (fun acc df =>
      let language := pyLower (pyStrip df.llengua)
      let text_content := pyStrip df.text
      if !text_content.isEmpty && (language = sl ∨ language = tl) then
        dictSet acc language text_content
      else acc)
    []

/-- The body of the denomination loop of TO2TBX-GUI.py (lines 146-175).
The filters are applied ONLY to source-language denominations; a
target-language denomination is cleaned and appended without any filter
check, and only a passing source-language denomination sets
`has_valid_term`. -/
def TBXGUI.denomStep (sl tl : List Char)
    (cf tf jf : Option (List (List Char)))
    (acc : Bool × List (List Char × List ExtractedTerm)) (d : Denomination) :
    Bool × List (List Char × List ExtractedTerm) :=
  let language := attrLangNorm d
  let raw_term := pyStrip d.text
  let category := pyStrip d.categoria
  let dtype := pyStrip d.tipus
  let djer := pyStrip d.jerarquia
  if !(language = sl ∨ language = tl : Bool) || raw_term.isEmpty then acc
  else if language = sl then
    if !(TBXGUI.passes_filters category dtype djer cf tf jf) then acc
    else
      (true,
       dictAppend acc.2 language
         ((clean_and_split_term raw_term).map
           (fun t => { term := t, category := category, type := dtype, hierarchy := djer })))
  else
    (acc.1,
     dictAppend acc.2 language
       ((clean_and_split_term raw_term).map
         (fun t => { term := t, category := category, type := dtype, hierarchy := djer })))

/-- The per-entry extraction of TO2TBX-GUI.py (lines 127-179): the dict is
seeded with `{sl: [], tl: []}` and the entry survives only when
`has_valid_term` is set AND the source-language list is non-empty
(line 178). -/
def TBXGUI.extractEntry (sl tl : List Char)
    (cf tf jf : Option (List (List Char))) (entry_count : Nat) (e : Fitxa) :
    Option Extracted :=
  let entry_id := e.num.getD (pys ("e") ++ (toString entry_count).toList)
  let area_tematica := pyStrip (e.areatematica.getD [])
  let definitions := TBXGUI.collectDefinitions sl tl e.definicions
  let init := (false, dictSet (dictSet [] sl ([] : List ExtractedTerm)) tl [])
  let r := e.denominacions.foldl (TBXGUI.denomStep sl tl cf tf jf) init
  if r.1 && !(dictGetD r.2 sl []).isEmpty then
    some { id := entry_id, area := area_tematica, definitions := definitions, byLang := r.2 }
  else none

/-! The TBX element tree built for one exported entry.  Children are kept
as ordered lists, mirroring the `ET.SubElement` append order. -/

/-- One `tig` element: the `term` child followed by `termNote` children,
each a (type attribute, text) pair in append order. -/
structure TigE where
  term : List Char
  notes : List (List Char × List Char)
deriving DecidableEq, Repr

/-- One child of a `langSet` element: a definition `descrip` or a `tig`. -/
inductive LangChild where
  | defn : List Char → LangChild
  | tig : TigE → LangChild
deriving DecidableEq, Repr

/-- One `langSet` element. -/
structure LangSetE where
  lang : List Char
  children : List LangChild
deriving DecidableEq, Repr

/-- One child of a `termEntry` element: the subject `descrip` or a
`langSet`. -/
inductive EntryChild where
  | subject : List Char → EntryChild
  | langSet : LangSetE → EntryChild
deriving DecidableEq, Repr

/-- One `termEntry` element. -/
structure TermEntryE where
  id : List Char
  children : List EntryChild
deriving DecidableEq, Repr

/-- The `tig` assembly of TO2TBX.py (lines 226-247): the category note is
gated by `include_category`, while the type and hierarchy notes are added
whenever the attribute is non-empty — the guards are literally
`d['type'] and (type_filter or True)` and
`d['hierarchy'] and (hierarchy_filter or True)`, where the truthiness of
the raw filter arguments (`tfT`, `jfT`) is swallowed by `or True`. -/
def TBX.buildTig (include_category : Bool) (tfT jfT : Bool) (d : ExtractedTerm) : TigE :=
  { term := d.term,
    notes :=
      (if include_category && !d.category.isEmpty then
        [(pys ("partOfSpeech"), d.category)] else []) ++
      (if !d.type.isEmpty && (tfT || true) then
        [(pys ("termType"), d.type)] else []) ++
      (if !d.hierarchy.isEmpty && (jfT || true) then
        [(pys ("normativeAuthorization"), d.hierarchy)] else []) }

/-- The per-language `langSet` assembly of TO2TBX.py (lines 210-247): a
`langSet` is produced when the language has terms or (with
`include_definition`) a truthy definition; the definition `descrip` is
appended before the `tig` elements, which follow extraction order. -/
def TBX.mkLangSet (incD incC tfT jfT : Bool)
    (definitions : List (List Char × List Char))
    (byLang : List (List Char × List ExtractedTerm)) (lang_code : List Char) :
    Option LangSetE :=
  let lang_terms := dictGetD byLang lang_code []
  let lang_def := dictGet definitions lang_code
  if !lang_terms.isEmpty || (incD && !(lang_def.getD []).isEmpty) then
    some { lang := lang_code,
           children :=
             (if incD && !(lang_def.getD []).isEmpty then
               [LangChild.defn (lang_def.getD [])] else []) ++
             lang_terms.map (fun d => LangChild.tig (TBX.buildTig incC tfT jfT d)) }
  else none

/-- The `termEntry` assembly of TO2TBX.py (lines 199-247).  The subject
`descrip` is appended first; the languages are then visited in the
iteration order of the Python SET `normalized_languages`, which the code
itself notes is not guaranteed to be the configured order — the embedding
therefore takes that order (`iterOrder`) as a parameter ranging over the
enumerations of the set. -/
def TBX.buildTermEntry (iterOrder : List (List Char))
    (incA incD incC tfT jfT : Bool) (x : Extracted) : TermEntryE :=
  { id := x.id,
    children :=
      (if incA && !x.area.isEmpty then [EntryChild.subject x.area] else []) ++
      iterOrder.filterMap
        (fun lang_code =>
          (TBX.mkLangSet incD incC tfT jfT x.definitions x.byLang lang_code).map
            EntryChild.langSet) }

/-- The `tig` assembly of TO2TBX-GUI.py (lines 203-222): all three
classification notes are gated by their include flags. -/
def TBXGUI.buildTig (incC incT incH : Bool) (d : ExtractedTerm) : TigE :=
  { term := d.term,
    notes :=
      (if incC && !d.category.isEmpty then
        [(pys ("partOfSpeech"), d.category)] else []) ++
      (if incT && !d.type.isEmpty then
        [(pys ("termType"), d.type)] else []) ++
      (if incH && !d.hierarchy.isEmpty then
        [(pys ("normativeAuthorization"), d.hierarchy)] else []) }

/-- The per-language `langSet` assembly of TO2TBX-GUI.py (lines 192-222):
a `langSet` is produced when the language has terms or (with
`include_definition`) a definition entry; the definition `descrip` (when
additionally non-empty) precedes the `tig` elements, which follow
extraction order. -/
def TBXGUI.mkLangSet (incD incC incT incH : Bool)
    (definitions : List (List Char × List Char))
    (byLang : List (List Char × List ExtractedTerm)) (lang_code : List Char) :
    Option LangSetE :=
  let lang_terms := dictGetD byLang lang_code []
  if !lang_terms.isEmpty || (incD && dictMem definitions lang_code) then
    some { lang := lang_code,
           children :=
             (if incD && dictMem definitions lang_code &&
                 !(dictGetD definitions lang_code []).isEmpty then
               [LangChild.defn (dictGetD definitions lang_code [])] else []) ++
             lang_terms.map (fun d => LangChild.tig (TBXGUI.buildTig incC incT incH d)) }
  else none

/-- The `termEntry` assembly of TO2TBX-GUI.py (lines 183-222): subject
first, then the languages visited in the literal order `[sl, tl]`. -/
def TBXGUI.buildTermEntry (sl tl : List Char)
    (incA incD incC incT incH : Bool) (x : Extracted) : TermEntryE :=
  { id := x.id,
    children :=
      (if incA && !x.area.isEmpty then [EntryChild.subject x.area] else []) ++
      [sl, tl].filterMap
        (fun lang_code =>
          (TBXGUI.mkLangSet incD incC incT incH x.definitions x.byLang lang_code).map
            EntryChild.langSet) }

/-! The tabular converter of TO2tabtxt.py (`xml_to_tsv`, lines 75-241). -/

/-- One collected term of TO2tabtxt.py: the `(term, category, type)`
triple appended to `terms_sl_data` / `terms_tl_data`. -/
abbrev SlTup := List Char × List Char × List Char

/-- One output row: a list of tab-separated fields. -/
abbrev Row := List (List Char)

/-- The body of the denomination loop of TO2tabtxt.py (lines 126-155), as
a fold step over `(terms_sl_data, terms_tl_data)`.  `passes_filters` is
evaluated first (and may raise); the raw `llengua` attribute is compared
with `sl`/`tl` without normalization; cleaned terms go to the side whose
language matches (`if ... elif ...`). -/
def Tabtxt.denomFold (sl tl : List Char)
    (ncp ntf njp : Option (List (List Char)))
    (acc : List SlTup × List SlTup) (d : Denomination) :
    Except PyErr (List SlTup × List SlTup) :=
  let language := d.llengua
  let raw_term := pyStrip d.text
  let category := pyStrip d.categoria
  let denomination_type := pyStrip d.tipus
  let denomination_jerarquia := pyStrip d.jerarquia
  match Tabtxt.passes_filters category denomination_type denomination_jerarquia ncp ntf njp with
  | .error e => .error e
  | .ok passed =>
    if !passed then .ok acc
    else if raw_term.isEmpty then .ok acc
    else
      let processed_terms := clean_and_split_term raw_term
      if processed_terms.isEmpty then .ok acc
      else if language = sl then
        .ok (acc.1 ++ processed_terms.map (fun t => (t, category, denomination_type)), acc.2)
      else if language = tl then
        .ok (acc.1, acc.2 ++ processed_terms.map (fun t => (t, category, denomination_type)))
      else .ok acc

/-- Definition collection of TO2tabtxt.py (lines 169-180): EVERY
`definicio` whose raw `llengua` equals `sl` contributes its stripped,
newline-flattened text (appending `''` when the text is falsy, which is
the same value). -/
def Tabtxt.collectDefinitionsSl (sl : List Char) (defs : List Definicio) :
    List (List Char) :=
  defs.foldl
    (fun acc df =>
      if df.llengua = sl then
        let text_definition := pyReplaceChar (pyStrip df.text) '\n' ' '
        acc ++ [if !text_definition.isEmpty then text_definition else []]
      else acc)
    []

/-- The definition list entering the cross-join of TO2tabtxt.py
(lines 168-183): with `include_definition` the collected definitions (or a
single `''` placeholder); otherwise the single marker `None`. -/
def Tabtxt.defsSl (incD : Bool) (sl : List Char) (e : Fitxa) :
    List (Option (List Char)) :=
  if incD then
    let ds := Tabtxt.collectDefinitionsSl sl e.definicions
    if ds.isEmpty then [some []] else ds.map some
  else [none]

/-- One output row of TO2tabtxt.py (lines 197-214): the term pair, then —
each gated by its flag — the SL and TL categories (TWO columns), the
thematic area, and the definition (only when it is not the `None`
marker). -/
def Tabtxt.buildRow (incA incD incC : Bool) (area_tematica : List Char)
    (a b : SlTup) (dsl : Option (List Char)) : Row :=
  [a.1, b.1] ++
  (if incC then [a.2.1, b.2.1] else []) ++
  (if incA then [area_tematica] else []) ++
  (if incD && dsl.isSome then [dsl.getD []] else [])

/-- The per-entry processing of TO2tabtxt.py (lines 117-216): run the
denomination loop, drop the entry when no SL term passed, substitute the
`('', '', '')` placeholder when no TL term passed, and emit the
cross-join of SL terms × TL terms × definitions. -/
def Tabtxt.processEntry (sl tl : List Char) (incA incD incC : Bool)
    (ncp ntf : Option (List (List Char))) (e : Fitxa) : Except PyErr (List Row) :=
  let area_tematica := pyStrip (e.areatematica.getD (pys ("N/A")))
  match e.denominacions.foldlM (Tabtxt.denomFold sl tl ncp ntf ntf) ([], []) with
  | .error err => .error err
  | .ok (slD, tlD) =>
    if slD.isEmpty then .ok []
    else
      let tlD := if tlD.isEmpty then [(([] : List Char), ([] : List Char), ([] : List Char))] else tlD
      .ok (slD.flatMap (fun a => tlD.flatMap (fun b =>
            (Tabtxt.defsSl incD sl e).map (fun dsl =>
              Tabtxt.buildRow incA incD incC area_tematica a b dsl))))

/-- `xml_to_tsv` of TO2tabtxt.py after a successful parse (lines 108-225).
Line 112 normalizes the type filters; line 113 then evaluates
`{f.strip().lower() for f in jerarquia_filters} if type_filters else None`
— when `type_filters` is truthy this reads the unbound name
`jerarquia_filters` and raises `NameError`; when it is falsy the
conditional expression short-circuits to `None`.  Line 135 passes the
normalized TYPE filter set in the hierarchy-filter position of
`passes_filters`. -/
def Tabtxt.xml_to_tsv (entries : List Fitxa) (sl tl : List Char)
    (incA incD incC : Bool)
    (category_prefixes type_filters : Option (List (List Char))) :
    Except PyErr (List Row) :=
  let ntf :=
    if optTruthy type_filters then
      some (((type_filters.getD []).map (fun f => pyLower (pyStrip f))).dedup)
    else none
  match (if optTruthy type_filters then
           (Except.error PyErr.nameError : Except PyErr (Option (List (List Char))))
         else .ok none) with
  | .error e => .error e
  | .ok _ =>
    let ncp :=
      if optTruthy category_prefixes then
        some (((category_prefixes.getD []).map (fun p => pyLower (pyStrip p))).dedup)
      else none
    entries.foldlM
      (fun acc e => (Tabtxt.processEntry sl tl incA incD incC ncp ntf e).map
        (fun rs => acc ++ rs))
      []

/-- The command-line arguments of TO2tabtxt.py (lines 245-322): note that
`--hierarchy-filter` IS parsed (lines 313-319). -/
structure TabtxtArgs where
  sl : List Char
  tl : List Char
  include_area : Bool
  include_definition : Bool
  include_category : Bool
  category_starts : Option (List (List Char))
  type_filter : Option (List (List Char))
  hierarchy_filter : Option (List (List Char))
deriving DecidableEq, Repr

/-- The `__main__` call of TO2tabtxt.py (lines 324-335): `xml_to_tsv` is
invoked with every parsed argument EXCEPT `args.hierarchy_filter`, which
no parameter of `xml_to_tsv` receives. -/
def Tabtxt.mainConvert (entries : List Fitxa) (a : TabtxtArgs) : Except PyErr (List Row) :=
  Tabtxt.xml_to_tsv entries a.sl a.tl a.include_area a.include_definition
    a.include_category a.category_starts a.type_filter

/-! The tabular converter of TO2tabtxt-GUI.py (`xml_to_tsv`,
lines 84-217). -/

/-- One filtered denomination record of TO2tabtxt-GUI.py (lines 176-183). -/
structure FiltDenom where
  lang : List Char
  term : List Char
  category : List Char
  type : List Char
  hierarchy : List Char
deriving DecidableEq, Repr

/-- The body of the denomination loop of TO2tabtxt-GUI.py (lines 155-183):
skip on blank text or a language outside `{sl, tl}`; skip when
`passes_filters` rejects; skip when cleaning yields nothing; otherwise
emit one record per cleaned term. -/
def TabtxtGUI.processDenomination (sl tl : List Char)
    (ncp ntf njf : Option (List (List Char))) (d : Denomination) : List FiltDenom :=
  let language := attrLangNorm d
  let raw_term := pyStrip d.text
  let category := pyStrip d.categoria
  let denomination_type := pyStrip d.tipus
  let denomination_jerarquia := pyStrip d.jerarquia
  if raw_term.isEmpty || !(language = sl ∨ language = tl : Bool) then []
  else if !(TabtxtGUI.passes_filters category denomination_type denomination_jerarquia
              ncp ntf njf) then []
  else
    (clean_and_split_term raw_term).map
      (fun t => { lang := language, term := t, category := category,
                  type := denomination_type, hierarchy := denomination_jerarquia })

/-- Definition lookup of TO2tabtxt-GUI.py (lines 143-150): the FIRST
`definicio` whose raw `llengua` equals `sl` (the loop breaks on it),
stripped and newline-flattened; `''` when none exists. -/
def TabtxtGUI.findDefinitionSl (sl : List Char) : List Definicio → List Char
  | [] => []
  | df :: rest =>
    if df.llengua = sl then pyReplaceChar (pyStrip df.text) '\n' ' '
    else TabtxtGUI.findDefinitionSl sl rest

/-- One output row of TO2tabtxt-GUI.py (lines 204-216): the term pair,
then — each one column, each gated by its flag — area, SL definition, and
the SL denomination's category, type and hierarchy. -/
def TabtxtGUI.buildRow (incA incD incC incT incH : Bool)
    (area definitions_sl : List Char) (a b : FiltDenom) : Row :=
  [a.term, b.term] ++
  (if incA then [area] else []) ++
  (if incD then [definitions_sl] else []) ++
  (if incC then [a.category] else []) ++
  (if incT then [a.type] else []) ++
  (if incH then [a.hierarchy] else [])

/-- The placeholder TL record used when no TL term passed (line 200); the
Python dict has no `lang` key, and no field but `term`, `category`,
`type`, `hierarchy` is ever read from it. -/
def TabtxtGUI.emptyTl : FiltDenom :=
  { lang := [], term := [], category := [], type := [], hierarchy := [] }

/-- The per-entry processing of TO2tabtxt-GUI.py (lines 135-217). -/
def TabtxtGUI.processEntry (sl tl : List Char) (incA incD incC incT incH : Bool)
    (ncp ntf njf : Option (List (List Char))) (e : Fitxa) : List Row :=
  let area_tematica := pyReplaceChar (pyStrip (e.areatematica.getD [])) '\n' ' '
  let definitions_sl :=
    if incD then TabtxtGUI.findDefinitionSl sl e.definicions else []
  let filtered := e.denominacions.flatMap (TabtxtGUI.processDenomination sl tl ncp ntf njf)
  let terms_sl := filtered.filter (fun d => d.lang = sl)
  let terms_tl := filtered.filter (fun d => d.lang = tl)
  if terms_sl.isEmpty then []
  else
    let combos :=
      if !terms_tl.isEmpty then
        terms_sl.flatMap (fun a => terms_tl.map (fun b => (a, b)))
      else terms_sl.map (fun a => (a, TabtxtGUI.emptyTl))
    combos.map (fun p =>
      TabtxtGUI.buildRow incA incD incC incT incH area_tematica definitions_sl p.1 p.2)

/-- `xml_to_tsv` of TO2tabtxt-GUI.py after a successful parse: the rows
written for the entries in document order (the header row construction at
lines 117-122 is dead — the `writer.writerow(header)` call is commented
out). -/
def TabtxtGUI.xml_to_tsv (entries : List Fitxa) (sl tl : List Char)
    (incA incD incC incT incH : Bool)
    (ncp ntf njf : Option (List (List Char))) : List Row :=
  entries.foldl
    (fun acc e => acc ++ TabtxtGUI.processEntry sl tl incA incD incC incT incH ncp ntf njf e)
    []

/-! Observation helpers over the TBX element tree. -/

/-- The language of an entry child, when it is a `langSet`. -/
def entryChildLang : EntryChild → Option (List Char)
  | EntryChild.langSet ls => some ls.lang
  | _ => none

/-- The languages of the `langSet` children of a `termEntry`, in element
order. -/
def langsOfEntry (t : TermEntryE) : List (List Char) :=
  t.children.filterMap entryChildLang

/-- Whether an entry child is a `langSet`. -/
def isLangSetChild : EntryChild → Bool
  | EntryChild.langSet _ => true
  | _ => false

/-- Entry-level metadata first: once the first `langSet` child appears,
every later child is a `langSet`. -/
def metadataFirst (cs : List EntryChild) : Bool :=
  (cs.dropWhile (fun c => !isLangSetChild c)).all isLangSetChild

/-- Whether a `langSet` child is a `tig`. -/
def childIsTig : LangChild → Bool
  | LangChild.tig _ => true
  | _ => false

/-- Definition before term groups: once the first `tig` child appears,
every later child is a `tig`. -/
def defnFirst (cs : List LangChild) : Bool :=
  (cs.dropWhile (fun c => !childIsTig c)).all childIsTig

/-- The term text of a langSet child, when it is a `tig`. -/
def langChildTerm : LangChild → Option (List Char)
  | LangChild.tig t => some t.term
  | _ => none

/-- The term texts of the `tig` children of a `langSet`, in element
order. -/
def tigTermsOf (cs : List LangChild) : List (List Char) :=
  cs.filterMap langChildTerm

/-! Concrete fixtures used by the closed theorems. -/

/-- An entry whose only denomination is an annotation-only term in the
requested language: its raw text is non-blank but cleans to nothing. -/
def fitxaC1 : Fitxa :=
  { num := none, areatematica := none, definicions := [],
    denominacions := [{ llengua := pys ("ca"), text := pys ("(x)"),
                        categoria := [], tipus := [], jerarquia := [] }] }

/-- An entry with a source-language denomination of category `n` and a
target-language denomination of category `v`. -/
def fitxaC4 : Fitxa :=
  { num := none, areatematica := none, definicions := [],
    denominacions :=
      [{ llengua := pys ("ca"), text := pys ("gos"), categoria := pys ("n"),
         tipus := [], jerarquia := [] },
       { llengua := pys ("es"), text := pys ("perro"), categoria := pys ("v"),
         tipus := [], jerarquia := [] }] }

/-- Two definitions in the same language, in document order. -/
def defsC5 : List Definicio :=
  [{ llengua := pys ("ca"), text := pys ("first") },
   { llengua := pys ("ca"), text := pys ("second") }]

/-- An entry with one source-language and one target-language term, both
of category `n`. -/
def fitxaC6 : Fitxa :=
  { num := none, areatematica := none, definicions := [],
    denominacions :=
      [{ llengua := pys ("ca"), text := pys ("gos"), categoria := pys ("n"),
         tipus := [], jerarquia := [] },
       { llengua := pys ("es"), text := pys ("perro"), categoria := pys ("n"),
         tipus := [], jerarquia := [] }] }

/-- The single row TO2tabtxt.py produces for `fitxaC6` with only
`include_category` enabled. -/
def rowC6 : Row := [pys ("gos"), pys ("perro"), pys ("n"), pys ("n")]

/-- An extracted entry holding one `ca` term and one `es` term. -/
def extractedC8 : Extracted :=
  { id := pys ("e1"), area := [], definitions := [],
    byLang :=
      [(pys ("ca"), [{ term := pys ("gos"), category := [], type := [], hierarchy := [] }]),
       (pys ("es"), [{ term := pys ("perro"), category := [], type := [], hierarchy := [] }])] }

/-- C1: for every glossary entry and configuration, an output entry is
emitted only if it contains at least one extracted term (post-cleaning) in
the language(s) required by the validity rule, and a denomination whose
cleaned term list is empty does not by itself establish entry validity.
The code of TO2TBX.py violates this: with languages `['ca']` and no
filters, an entry whose only denomination is the annotation-only `ca` term
`(x)` — whose cleaned term list is empty — is extracted as valid with zero
terms in every language, and the assembled `termEntry` is emitted with no
`langSet` at all, contradicting the claim (and the code's own comments at
lines 157 and 194, which require at least one term). -/
theorem claim_C1_zero_term_entry_exported :
    normalize_filter_list [pys ("ca")] = some [pys ("ca")] ∧
    clean_and_split_term (pys ("(x)")) = [] ∧
    TBX.extractEntry [pys ("ca")] none none none 1 fitxaC1 =
      some { id := pys ("e1"), area := [], definitions := [],
             byLang := [(pys ("ca"), [])] } ∧
    TBX.buildTermEntry [pys ("ca")] true true true false false
      { id := pys ("e1"), area := [], definitions := [],
        byLang := [(pys ("ca"), [])] } =
      { id := pys ("e1"), children := [] } := by
  refine ⟨by decide, by decide, by decide, by decide⟩

/-- C9: with a truthy (non-empty) `type_filters` argument, `xml_to_tsv` of
TO2tabtxt.py raises `NameError` in the filter-normalization step (line 113
reads the unbound name `jerarquia_filters`), for every input document and
every other configuration, so no conversion with an active type filter
ever completes. -/
theorem claim_C9_type_filter_name_error (entries : List Fitxa)
    (sl tl : List Char) (incA incD incC : Bool)
    (cp : Option (List (List Char))) (t : List Char) (ts : List (List Char)) :
    Tabtxt.xml_to_tsv entries sl tl incA incD incC cp (some (t :: ts)) =
      Except.error PyErr.nameError := by
  simp [Tabtxt.xml_to_tsv, optTruthy]

/-- C10: two invocations of TO2tabtxt.py that differ only in the parsed
`--hierarchy-filter` argument produce identical output: the argument is
parsed but `xml_to_tsv` (whose signature has no hierarchy parameter) is
never given it, and line 135 passes the type-filter set in the hierarchy
position of `passes_filters`, so the hierarchy filter cannot influence the
result. -/
theorem claim_C10_hierarchy_filter_noninterference (entries : List Fitxa)
    (a : TabtxtArgs) (h1 h2 : Option (List (List Char))) :
    Tabtxt.mainConvert entries { a with hierarchy_filter := h1 } =
    Tabtxt.mainConvert entries { a with hierarchy_filter := h2 } := rfl

/-- C2, counterexample: the claim states that with an active
category-prefix filter `passes_filters` accepts only a non-empty category
starting with some prefix.  The `passes_filters` of TO2tabtxt.py accepts a
denomination with an EMPTY category under the active category filter
`{'n'}` (its documented lenient behavior), while the specification's
predicate rejects it. -/
theorem claim_C2_counterexample :
    Tabtxt.passes_filters [] [] [] (some [pys ("n")]) none none = Except.ok true ∧
    specPassesFilters [] [] [] (some [pys ("n")]) none none = false := by
  exact ⟨rfl, by decide⟩

/-- C4, counterexample: the claim states that in source/target mode a
denomination in the non-source language failing the filters is dropped.
In TO2TBX-GUI.py, with category filter `{'n'}`, the target-language
denomination `perro` (category `v`) FAILS `passes_filters`, yet the
extracted entry still carries it — target-language denominations are never
filtered. -/
theorem claim_C4_counterexample :
    TBXGUI.passes_filters (pys ("v")) [] [] (some [pys ("n")]) none none = false ∧
    (TBXGUI.extractEntry (pys ("ca")) (pys ("es")) (some [pys ("n")]) none none 1
        fitxaC4).map (fun x => dictGetD x.byLang (pys ("es")) []) =
      some [{ term := pys ("perro"), category := pys ("v"), type := [],
              hierarchy := [] }] := by
  exact ⟨by decide, by decide⟩

/-- C5, counterexample: the claim states that only the FIRST definition in
document order per language is retained.  TO2TBX.py's definition
collection, given two `ca` definitions, retains the second (later
assignments overwrite earlier ones). -/
theorem claim_C5_counterexample :
    dictGet (TBX.collectDefinitions [pys ("ca")] defsC5) (pys ("ca")) =
      some (pys ("second")) ∧
    pys ("second") ≠ pys ("first") := by
  exact ⟨by decide, by decide⟩

/-- C6, counterexample: the claim states that each tabular row has exactly
2 columns plus one per true include-flag.  TO2tabtxt.py with only
`include_category` enabled (one true flag) produces a row of 4 columns,
not 3: `include_category` appends both the SL and the TL category. -/
theorem claim_C6_counterexample :
    Tabtxt.xml_to_tsv [fitxaC6] (pys ("ca")) (pys ("es")) false false true
      none none = Except.ok [rowC6] ∧
    rowC6.length = 4 ∧ ¬ (rowC6.length = 2 + 1) := by
  exact ⟨rfl, by decide, by decide⟩

/-- C8, counterexample: the claim states that language groups appear in
the configured language order.  In TO2TBX.py the languages are visited in
the iteration order of the Python set `normalized_languages`; for the
configured order `['ca', 'es']`, the enumeration `['es', 'ca']` of that
set is a legitimate set-iteration order, and under it the emitted
`langSet` sequence is `['es', 'ca']`, not the configured `['ca', 'es']`. -/
theorem claim_C8_counterexample :
    normalize_filter_list [pys ("ca"), pys ("es")] =
      some [pys ("ca"), pys ("es")] ∧
    List.Perm [pys ("es"), pys ("ca")] [pys ("ca"), pys ("es")] ∧
    langsOfEntry (TBX.buildTermEntry [pys ("es"), pys ("ca")]
        false false false false false extractedC8) =
      [pys ("es"), pys ("ca")] ∧
    [pys ("es"), pys ("ca")] ≠ [pys ("ca"), pys ("es")] := by
  refine ⟨by decide, by decide, by decide, by decide⟩

/-- C3: the cleaner removes parenthesised/bracketed annotations with their
preceding whitespace, trims, splits on `|`, trims the pieces and discards
empty ones; in particular the three round-trip examples hold, and every
returned string is non-empty. -/
theorem claim_C3_term_cleaner :
    clean_and_split_term (pys ("foo (bar) | baz [qux]")) =
      [pys ("foo"), pys ("baz")] ∧
    clean_and_split_term (pys ("(only annotation)")) = [] ∧
    clean_and_split_term (pys ("no annotation")) = [pys ("no annotation")] ∧
    ∀ (t s : List Char), s ∈ clean_and_split_term t → s ≠ [] := by
  refine ⟨by decide, by decide, by decide, ?_⟩
  intro t s hs
  simp only [clean_and_split_term] at hs
  split at hs
  · rw [List.mem_filter] at hs
    intro hnil
    rw [hnil] at hs
    simp at hs
  · split at hs
    · rename_i h2
      rw [List.mem_singleton] at hs
      subst hs
      intro hnil
      rw [hnil] at h2
      simp at h2
    · simp at hs

/-- Witness for `claim_C3_term_cleaner`: the membership hypothesis is
discharged at the concrete input `a|b`. -/
theorem claim_C3_witness :
    pys ("a") ∈ clean_and_split_term (pys ("a|b")) ∧ pys ("a") ≠ [] :=
  ⟨by decide, claim_C3_term_cleaner.2.2.2 (pys ("a|b")) (pys ("a")) (by decide)⟩

/-- C4 (amended): in TO2tabtxt-GUI.py every denomination in a language of
interest that fails an active filter axis is skipped and contributes no
terms; in TO2TBX-GUI.py this holds for source-language denominations, but
target-language denominations are never passed through the filters at all
— the result of the loop body on a non-source-language denomination is the
same under any two filter configurations. -/
theorem claim_C4_denomination_skipping :
    (∀ (sl tl : List Char) (cf tf jf : Option (List (List Char))) (d : Denomination),
      TabtxtGUI.passes_filters (pyStrip d.categoria) (pyStrip d.tipus)
          (pyStrip d.jerarquia) cf tf jf = false →
      TabtxtGUI.processDenomination sl tl cf tf jf d = []) ∧
    (∀ (sl tl : List Char) (cf tf jf : Option (List (List Char)))
        (acc : Bool × List (List Char × List ExtractedTerm)) (d : Denomination),
      attrLangNorm d = sl →
      TBXGUI.passes_filters (pyStrip d.categoria) (pyStrip d.tipus)
          (pyStrip d.jerarquia) cf tf jf = false →
      TBXGUI.denomStep sl tl cf tf jf acc d = acc) ∧
    (∀ (sl tl : List Char) (cf tf jf cf2 tf2 jf2 : Option (List (List Char)))
        (acc : Bool × List (List Char × List ExtractedTerm)) (d : Denomination),
      attrLangNorm d ≠ sl →
      TBXGUI.denomStep sl tl cf tf jf acc d =
        TBXGUI.denomStep sl tl cf2 tf2 jf2 acc d) := by
  refine ⟨?_, ?_, ?_⟩
  · intro sl tl cf tf jf d h
    simp only [TabtxtGUI.processDenomination]
    split
    · rfl
    · rw [h]
      simp
  · intro sl tl cf tf jf acc d hlang h
    simp only [TBXGUI.denomStep, hlang]
    split
    · rfl
    · simp [h]
  · intro sl tl cf tf jf cf2 tf2 jf2 acc d hlang
    simp only [TBXGUI.denomStep]
    rw [if_neg hlang, if_neg hlang]

/-- Witness for `claim_C4_denomination_skipping`: each hypothesis is
discharged at the concrete `perro` denomination of `fitxaC4` (category
`v`, failing the prefix filter `{'n'}`) and at source language `ca`. -/
theorem claim_C4_witness :
    TabtxtGUI.processDenomination (pys ("es")) (pys ("ca"))
        (some [pys ("n")]) none none
        { llengua := pys ("es"), text := pys ("perro"), categoria := pys ("v"),
          tipus := [], jerarquia := [] } = [] ∧
    TBXGUI.denomStep (pys ("es")) (pys ("ca")) (some [pys ("n")]) none none
        (false, [(pys ("es"), []), (pys ("ca"), [])])
        { llengua := pys ("es"), text := pys ("perro"), categoria := pys ("v"),
          tipus := [], jerarquia := [] } =
      (false, [(pys ("es"), []), (pys ("ca"), [])]) ∧
    TBXGUI.denomStep (pys ("ca")) (pys ("es")) (some [pys ("n")]) none none
        (false, [(pys ("ca"), []), (pys ("es"), [])])
        { llengua := pys ("es"), text := pys ("perro"), categoria := pys ("v"),
          tipus := [], jerarquia := [] } =
      TBXGUI.denomStep (pys ("ca")) (pys ("es")) none none none
        (false, [(pys ("ca"), []), (pys ("es"), [])])
        { llengua := pys ("es"), text := pys ("perro"), categoria := pys ("v"),
          tipus := [], jerarquia := [] } :=
  ⟨claim_C4_denomination_skipping.1 (pys ("es")) (pys ("ca")) (some [pys ("n")])
      none none _ (by decide),
   claim_C4_denomination_skipping.2.1 (pys ("es")) (pys ("ca")) (some [pys ("n")])
      none none _ _ (by decide) (by decide),
   claim_C4_denomination_skipping.2.2 (pys ("ca")) (pys ("es")) (some [pys ("n")])
      none none none none none _ _ (by decide)⟩

/-- Looking up a key immediately after assigning it yields the assigned
value. -/
theorem dictGet_dictSet {β : Type} (m : List (List Char × β)) (k : List Char) (v : β) :
    dictGet (dictSet m k v) k = some v := by
  induction m with
  | nil => simp [dictSet, dictGet]
  | cons kv rest ih =>
    obtain ⟨k2, w⟩ := kv
    by_cases h : k2 = k
    · simp [dictSet, dictGet, h]
    · simp [dictSet, dictGet, h, ih]

/-- The value appended by one step of TO2tabtxt.py's definition loop. -/
theorem collectDefinitionsSl_spec (sl : List Char) (defs : List Definicio) :
    Tabtxt.collectDefinitionsSl sl defs =
      (defs.filter (fun df => df.llengua = sl)).map
        (fun df => pyReplaceChar (pyStrip df.text) '\n' ' ') := by
  have aux : ∀ (ds : List Definicio) (acc : List (List Char)),
      ds.foldl
        (fun acc df =>
          if df.llengua = sl then
            let text_definition := pyReplaceChar (pyStrip df.text) '\n' ' '
            acc ++ [if !text_definition.isEmpty then text_definition else []]
          else acc)
        acc =
      acc ++ (ds.filter (fun df => df.llengua = sl)).map
        (fun df => pyReplaceChar (pyStrip df.text) '\n' ' ') := by
    intro ds
    induction ds with
    | nil => intro acc; simp
    | cons df rest ih =>
      intro acc
      by_cases h : df.llengua = sl
      · have hval : (if !(pyReplaceChar (pyStrip df.text) '\n' ' ').isEmpty
            then pyReplaceChar (pyStrip df.text) '\n' ' ' else []) =
            pyReplaceChar (pyStrip df.text) '\n' ' ' := by
          by_cases he : (pyReplaceChar (pyStrip df.text) '\n' ' ').isEmpty
          · rw [if_neg (by simp [he])]
            rw [List.isEmpty_eq_true] at he
            exact he.symm
          · rw [if_pos (by simp [he])]
        simp only [List.foldl_cons]
        rw [if_pos h, hval, ih]
        simp [List.filter_cons, h, List.append_assoc]
      · simp only [List.foldl_cons, List.filter_cons]
        rw [if_neg h]
        simp only [decide_eq_true_eq]
        rw [if_neg h]
        exact ih acc
  exact aux defs []

/-- C5 (amended): TO2tabtxt-GUI.py retains the FIRST source-language
definition in document order; TO2TBX.py (and its GUI twin, whose
collection loop is the same) retains the LAST non-blank definition per
language — appending a further matching definition overwrites the retained
one; and TO2tabtxt.py retains EVERY source-language definition, one
cross-join factor per definition. -/
theorem claim_C5_definition_retention :
    (∀ (sl : List Char) (pre : List Definicio) (d : Definicio) (post : List Definicio),
      (∀ x ∈ pre, x.llengua ≠ sl) → d.llengua = sl →
      TabtxtGUI.findDefinitionSl sl (pre ++ d :: post) =
        pyReplaceChar (pyStrip d.text) '\n' ' ') ∧
    (∀ (normLangs : List (List Char)) (defs : List Definicio) (d : Definicio),
      pyStrip d.text ≠ [] →
      normLangs.contains (pyLower (pyStrip d.llengua)) = true →
      dictGet (TBX.collectDefinitions normLangs (defs ++ [d]))
          (pyLower (pyStrip d.llengua)) = some (pyStrip d.text)) ∧
    (∀ (sl : List Char) (defs : List Definicio),
      Tabtxt.collectDefinitionsSl sl defs =
        (defs.filter (fun df => df.llengua = sl)).map
          (fun df => pyReplaceChar (pyStrip df.text) '\n' ' ')) := by
  refine ⟨?_, ?_, collectDefinitionsSl_spec⟩
  · intro sl pre d post hpre hd
    induction pre with
    | nil => simp [TabtxtGUI.findDefinitionSl, hd]
    | cons x rest ih =>
      have hx : x.llengua ≠ sl := hpre x (by simp)
      simp only [List.cons_append, TabtxtGUI.findDefinitionSl]
      rw [if_neg hx]
      exact ih (fun y hy => hpre y (by simp [hy]))
  · intro normLangs defs d htext hmem
    unfold TBX.collectDefinitions
    rw [List.foldl_append]
    simp only [List.foldl_cons, List.foldl_nil]
    rw [if_pos (by simp [htext]; simpa using hmem)]
    exact dictGet_dictSet _ _ _

/-- Witness for `claim_C5_definition_retention`: the hypotheses are
discharged at the two concrete `ca` definitions of `defsC5`. -/
theorem claim_C5_witness :
    TabtxtGUI.findDefinitionSl (pys ("ca")) defsC5 = pys ("first") ∧
    dictGet (TBX.collectDefinitions [pys ("ca")]
        ([{ llengua := pys ("ca"), text := pys ("first") }] ++
          [{ llengua := pys ("ca"), text := pys ("second") }]))
      (pys ("ca")) = some (pys ("second")) ∧
    Tabtxt.collectDefinitionsSl (pys ("ca")) defsC5 =
      [pys ("first"), pys ("second")] := by
  refine ⟨?_, ?_, ?_⟩
  · have h := claim_C5_definition_retention.1 (pys ("ca")) []
      { llengua := pys ("ca"), text := pys ("first") }
      [{ llengua := pys ("ca"), text := pys ("second") }]
      (by intro x hx; simp at hx) (by decide)
    exact h.trans (by decide)
  · have h := claim_C5_definition_retention.2.1 [pys ("ca")]
      [{ llengua := pys ("ca"), text := pys ("first") }]
      { llengua := pys ("ca"), text := pys ("second") } (by decide) (by decide)
    exact h.trans (by decide)
  · have h := claim_C5_definition_retention.2.2 (pys ("ca")) defsC5
    exact h.trans (by decide)

/-- The explicit prefix loop of TO2tabtxt-GUI.py agrees with `List.any`. -/
theorem prefixLoop_eq_any (c : List Char) (l : List (List Char)) :
    prefixLoop c l = l.any (fun p => p.isPrefixOf c) := by
  induction l with
  | nil => rfl
  | cons p rest ih =>
    simp only [prefixLoop, List.any_cons, ih]
    by_cases h : p.isPrefixOf c <;> simp [h]

/-- The exact-membership rejection step as a conjunction. -/
theorem guardStep (g b : Bool) : (if (!g) = true then false else b) = (g && b) := by
  cases g <;> simp

/-- The category rejection step as a conjunction. -/
theorem catGuard (eb ab b : Bool) :
    (if (eb || !ab) = true then false else b) = ((!eb && ab) && b) := by
  cases eb <;> cases ab <;> cases b <;> rfl

/-- The hierarchy step of the shared strict `passes_filters` equals the
specification's hierarchy axis, for a well-formed filter. -/
theorem step3_spec (j : List Char) (jf : Option (List (List Char))) (hj : FilterWF jf) :
    (if setTruthy jf then
       (if !((jf.getD []).contains (pyLower (pyStrip j))) then false else true)
     else true) =
    (match jf with
     | none => true
     | some js => js.contains (pyLower (pyStrip j))) := by
  rcases jf with _ | lj
  · rfl
  · have hlj : lj ≠ [] := fun h => hj (by rw [h])
    have e : lj.isEmpty = false := by simp [hlj]
    simp only [setTruthy, Option.getD_some, e, Bool.not_false, if_true]
    rw [guardStep]
    simp

/-- The type step of the shared strict `passes_filters` equals the
specification's type axis conjoined with the continuation, for a
well-formed filter. -/
theorem step2_spec (t : List Char) (tf : Option (List (List Char)))
    (ht : FilterWF tf) (b : Bool) :
    (if setTruthy tf then
       (if !((tf.getD []).contains (pyLower (pyStrip t))) then false else b)
     else b) =
    ((match tf with
      | none => true
      | some ts => ts.contains (pyLower (pyStrip t))) && b) := by
  rcases tf with _ | lt
  · simp [setTruthy]
  · have hlt : lt ≠ [] := fun h => ht (by rw [h])
    have e : lt.isEmpty = false := by simp [hlt]
    simp only [setTruthy, Option.getD_some, e, Bool.not_false, if_true]
    rw [guardStep]

/-- The category step of the shared strict `passes_filters` equals the
specification's category axis conjoined with the continuation, for a
well-formed filter. -/
theorem catStep_spec (c : List Char) (cf : Option (List (List Char)))
    (hc : FilterWF cf) (b : Bool) :
    (if setTruthy cf then
       (if (pyLower (pyStrip c)).isEmpty ||
           !((cf.getD []).any (fun p => p.isPrefixOf (pyLower (pyStrip c)))) then false
        else b)
     else b) =
    ((match cf with
      | none => true
      | some ps =>
        !(pyLower (pyStrip c)).isEmpty &&
          ps.any (fun p => p.isPrefixOf (pyLower (pyStrip c)))) && b) := by
  rcases cf with _ | lc
  · simp [setTruthy]
  · have hlc : lc ≠ [] := fun h => hc (by rw [h])
    have e : lc.isEmpty = false := by simp [hlc]
    simp only [setTruthy, Option.getD_some, e, Bool.not_false, if_true]
    rw [catGuard]

/-- Merging the two sequential category rejections of TO2tabtxt-GUI.py
into the disjunctive rejection of TO2TBX.py. -/
theorem catTwoStep (e a : Bool) (b : Bool) :
    (if e = true then false else if (!a) = true then false else b) =
    (if (e || !a) = true then false else b) := by
  cases e <;> cases a <;> rfl

/-- C2 (amended): in TO2TBX.py (and in TO2tabtxt-GUI.py, whose
`passes_filters` is proved equal to it), `passes_filters` is exactly the
specification's conjunction of the three axes for every well-formed filter
configuration; the TO2tabtxt.py variant instead lets an EMPTY attribute
pass every active axis (rejection requires a present, non-matching
attribute), so a denomination whose three attributes are all blank passes
regardless of the configured filters. -/
theorem claim_C2_filter_conjunction :
    (∀ (c t j : List Char) (cf tf jf : Option (List (List Char))),
      FilterWF cf → FilterWF tf → FilterWF jf →
      TBX.passes_filters c t j cf tf jf = specPassesFilters c t j cf tf jf) ∧
    (∀ (c t j : List Char) (cf tf jf : Option (List (List Char))),
      TabtxtGUI.passes_filters c t j cf tf jf = TBX.passes_filters c t j cf tf jf) ∧
    (∀ (c t j : List Char) (cf tfArg njp : Option (List (List Char))),
      pyStrip c = [] → pyStrip t = [] → pyStrip j = [] →
      Tabtxt.passes_filters c t j cf tfArg njp = Except.ok true) := by
  refine ⟨?_, ?_, ?_⟩
  · intro c t j cf tf jf hc ht hj
    simp only [TBX.passes_filters, specPassesFilters]
    rw [step3_spec j jf hj, step2_spec t tf ht, catStep_spec c cf hc,
      ← Bool.and_assoc]
    rcases cf with _ | lc <;> rcases tf with _ | lt <;> rcases jf with _ | lj <;> rfl
  · intro c t j cf tf jf
    simp only [TabtxtGUI.passes_filters, TBX.passes_filters, prefixLoop_eq_any,
      catTwoStep]
  · intro c t j cf tfArg njp h1 h2 h3
    simp only [Tabtxt.passes_filters, h1, h2, h3]
    simp [pyLower]

/-- Witness for `claim_C2_filter_conjunction`: the well-formedness and
blank-attribute hypotheses are discharged at concrete filter sets and
attribute strings. -/
theorem claim_C2_witness :
    TBX.passes_filters (pys ("n f")) (pys ("principal")) []
        (some [pys ("n")]) (some [pys ("principal")]) none =
      specPassesFilters (pys ("n f")) (pys ("principal")) []
        (some [pys ("n")]) (some [pys ("principal")]) none ∧
    TabtxtGUI.passes_filters (pys ("v")) [] [] (some [pys ("n")]) none none =
      TBX.passes_filters (pys ("v")) [] [] (some [pys ("n")]) none none ∧
    Tabtxt.passes_filters (pys (" ")) (pys (" ")) (pys (" "))
        (some [pys ("n")]) (some [pys ("principal")]) none = Except.ok true :=
  ⟨claim_C2_filter_conjunction.1 (pys ("n f")) (pys ("principal")) []
      (some [pys ("n")]) (some [pys ("principal")]) none
      (by unfold FilterWF; decide) (by unfold FilterWF; decide)
      (by unfold FilterWF; decide),
   claim_C2_filter_conjunction.2.1 (pys ("v")) [] [] (some [pys ("n")]) none none,
   claim_C2_filter_conjunction.2.2 (pys (" ")) (pys (" ")) (pys (" "))
      (some [pys ("n")]) (some [pys ("principal")]) none
      (by decide) (by decide) (by decide)⟩

/-- One column per true flag. -/
def bi (b : Bool) : Nat := if b then 1 else 0

/-- Row length of the TO2tabtxt-GUI.py row builder: two term columns plus
one column per true include flag. -/
theorem TabtxtGUI_buildRow_length (incA incD incC incT incH : Bool)
    (area defSl : List Char) (a b : FiltDenom) :
    (TabtxtGUI.buildRow incA incD incC incT incH area defSl a b).length =
      2 + bi incA + bi incD + bi incC + bi incT + bi incH := by
  cases incA <;> cases incD <;> cases incC <;> cases incT <;> cases incH <;>
    simp [TabtxtGUI.buildRow, bi]

/-- Row length of the TO2tabtxt.py row builder: the category flag adds TWO
columns. -/
theorem Tabtxt_buildRow_length (incA incD incC : Bool) (area : List Char)
    (a b : SlTup) (dsl : Option (List Char)) :
    (Tabtxt.buildRow incA incD incC area a b dsl).length =
      2 + (if incC then 2 else 0) + bi incA +
        (if incD && dsl.isSome then 1 else 0) := by
  cases dsl <;> cases incA <;> cases incD <;> cases incC <;>
    simp [Tabtxt.buildRow, bi]

/-- Every member of the definition cross-join factor is `some` exactly
when `include_definition` is set. -/
theorem Tabtxt_defsSl_isSome (incD : Bool) (sl : List Char) (e : Fitxa)
    (dsl : Option (List Char)) (h : dsl ∈ Tabtxt.defsSl incD sl e) :
    dsl.isSome = incD := by
  simp only [Tabtxt.defsSl] at h
  cases incD
  · simp at h
    subst h
    rfl
  · rw [if_pos rfl] at h
    split at h
    · rw [List.mem_singleton] at h
      subst h
      rfl
    · rw [List.mem_map] at h
      obtain ⟨x, _, hx⟩ := h
      subst hx
      rfl

/-- Membership in a fold that appends per-element rows. -/
theorem mem_foldl_append {α β : Type} (f : β → List α) (l : List β)
    (init : List α) (r : α)
    (h : r ∈ l.foldl (fun acc e => acc ++ f e) init) :
    r ∈ init ∨ ∃ e ∈ l, r ∈ f e := by
  induction l generalizing init with
  | nil => exact Or.inl h
  | cons e es ih =>
    simp only [List.foldl_cons] at h
    rcases ih (init ++ f e) h with h1 | h2
    · rcases List.mem_append.mp h1 with h3 | h4
      · exact Or.inl h3
      · exact Or.inr ⟨e, by simp, h4⟩
    · obtain ⟨e2, he2, hr⟩ := h2
      exact Or.inr ⟨e2, by simp [he2], hr⟩

/-- Every row emitted by the per-entry processing of TO2tabtxt-GUI.py has
two term columns plus one column per true flag. -/
theorem TabtxtGUI_processEntry_row_length (sl tl : List Char)
    (incA incD incC incT incH : Bool) (ncp ntf njf : Option (List (List Char)))
    (e : Fitxa) (r : Row)
    (h : r ∈ TabtxtGUI.processEntry sl tl incA incD incC incT incH ncp ntf njf e) :
    r.length = 2 + bi incA + bi incD + bi incC + bi incT + bi incH := by
  simp only [TabtxtGUI.processEntry] at h
  split at h
  · simp at h
  · rw [List.mem_map] at h
    obtain ⟨p, _, hp⟩ := h
    subst hp
    exact TabtxtGUI_buildRow_length ..

/-- Every row emitted by the per-entry processing of TO2tabtxt.py has two
term columns, two more when the category flag is set, and one more for
each of the area and definition flags. -/
theorem Tabtxt_processEntry_row_length (sl tl : List Char)
    (incA incD incC : Bool) (ncp ntf : Option (List (List Char)))
    (e : Fitxa) (rs : List Row) (r : Row)
    (h : Tabtxt.processEntry sl tl incA incD incC ncp ntf e = Except.ok rs)
    (hr : r ∈ rs) :
    r.length = 2 + (if incC then 2 else 0) + bi incA + bi incD := by
  simp only [Tabtxt.processEntry] at h
  cases hF : e.denominacions.foldlM (Tabtxt.denomFold sl tl ncp ntf ntf) ([], []) with
  | error err =>
    rw [hF] at h
    simp at h
  | ok p =>
    obtain ⟨slD, tlD⟩ := p
    rw [hF] at h
    simp only [] at h
    by_cases hsl : slD.isEmpty
    · rw [if_pos hsl] at h
      simp only [Except.ok.injEq] at h
      subst h
      simp at hr
    · rw [if_neg hsl] at h
      simp only [Except.ok.injEq] at h
      subst h
      rw [List.mem_flatMap] at hr
      obtain ⟨a, _, hr⟩ := hr
      rw [List.mem_flatMap] at hr
      obtain ⟨b, _, hr⟩ := hr
      rw [List.mem_map] at hr
      obtain ⟨dsl, hdsl, hrow⟩ := hr
      subst hrow
      rw [Tabtxt_buildRow_length, Tabtxt_defsSl_isSome incD sl e dsl hdsl,
        Bool.and_self]
      cases incD <;> simp [bi]

/-- Membership in the row accumulator of TO2tabtxt.py's entry loop. -/
theorem Tabtxt_foldlM_mem (sl tl : List Char) (incA incD incC : Bool)
    (ncp ntf : Option (List (List Char))) (entries : List Fitxa)
    (init rows : List Row) (r : Row)
    (h : entries.foldlM
        (fun acc e => (Tabtxt.processEntry sl tl incA incD incC ncp ntf e).map
          (fun rs => acc ++ rs)) init = Except.ok rows)
    (hr : r ∈ rows) :
    r ∈ init ∨ ∃ e ∈ entries, ∃ rs,
      Tabtxt.processEntry sl tl incA incD incC ncp ntf e = Except.ok rs ∧ r ∈ rs := by
  induction entries generalizing init with
  | nil =>
    simp only [List.foldlM_nil] at h
    cases h
    exact Or.inl hr
  | cons e es ih =>
    rw [List.foldlM_cons] at h
    cases hP : Tabtxt.processEntry sl tl incA incD incC ncp ntf e with
    | error err =>
      rw [hP] at h
      simp [Except.map, Bind.bind, Except.bind] at h
    | ok rs =>
      rw [hP] at h
      simp only [Except.map, Bind.bind, Except.bind] at h
      rcases ih (init ++ rs) h with h1 | h2
      · rcases List.mem_append.mp h1 with h3 | h4
        · exact Or.inl h3
        · exact Or.inr ⟨e, by simp, rs, hP, h4⟩
      · obtain ⟨e2, he2, rs2, hrs2, hr2⟩ := h2
        exact Or.inr ⟨e2, by simp [he2], rs2, hrs2, hr2⟩

/-- C6 (amended): each row of TO2tabtxt-GUI.py's output has exactly 2 term
columns plus ONE column per true include flag; each row of TO2tabtxt.py's
output instead has 2 term columns, TWO more when `include_category` is set
(SL and TL categories), and one more for each of the area and definition
flags; in TO2TBX-GUI.py's TBX output a classification annotation never
appears when its include flag is false; but in TO2TBX.py's TBX output the
`termType` and `normativeAuthorization` annotations are always emitted
when the source attribute is non-empty — they are not gated by any
include flag. -/
theorem claim_C6_column_include_correspondence :
    (∀ (entries : List Fitxa) (sl tl : List Char)
        (incA incD incC incT incH : Bool) (ncp ntf njf : Option (List (List Char)))
        (r : Row),
      r ∈ TabtxtGUI.xml_to_tsv entries sl tl incA incD incC incT incH ncp ntf njf →
      r.length = 2 + bi incA + bi incD + bi incC + bi incT + bi incH) ∧
    (∀ (entries : List Fitxa) (sl tl : List Char) (incA incD incC : Bool)
        (cp tfArg : Option (List (List Char))) (rows : List Row) (r : Row),
      Tabtxt.xml_to_tsv entries sl tl incA incD incC cp tfArg = Except.ok rows →
      r ∈ rows →
      r.length = 2 + (if incC then 2 else 0) + bi incA + bi incD) ∧
    (∀ (incT incH : Bool) (d : ExtractedTerm),
      (TBXGUI.buildTig false incT incH d).notes.filter
        (fun n => n.1 = pys ("partOfSpeech")) = []) ∧
    (∀ (incC incH : Bool) (d : ExtractedTerm),
      (TBXGUI.buildTig incC false incH d).notes.filter
        (fun n => n.1 = pys ("termType")) = []) ∧
    (∀ (incC incT : Bool) (d : ExtractedTerm),
      (TBXGUI.buildTig incC incT false d).notes.filter
        (fun n => n.1 = pys ("normativeAuthorization")) = []) ∧
    (∀ (incC tfT jfT : Bool) (d : ExtractedTerm), d.type ≠ [] →
      (TBX.buildTig incC tfT jfT d).notes.filter
          (fun n => n.1 = pys ("termType")) = [(pys ("termType"), d.type)]) ∧
    (∀ (incC tfT jfT : Bool) (d : ExtractedTerm), d.hierarchy ≠ [] →
      (TBX.buildTig incC tfT jfT d).notes.filter
          (fun n => n.1 = pys ("normativeAuthorization")) =
        [(pys ("normativeAuthorization"), d.hierarchy)]) := by
  refine ⟨?_, ?_, ?_, ?_, ?_, ?_, ?_⟩
  · intro entries sl tl incA incD incC incT incH ncp ntf njf r h
    rcases mem_foldl_append _ entries [] r h with h1 | ⟨e, _, h2⟩
    · simp at h1
    · exact TabtxtGUI_processEntry_row_length sl tl incA incD incC incT incH
        ncp ntf njf e r h2
  · intro entries sl tl incA incD incC cp tfArg rows r h hr
    simp only [Tabtxt.xml_to_tsv] at h
    by_cases htf : optTruthy tfArg
    · rw [if_pos htf] at h
      simp at h
    · rw [if_neg htf] at h
      simp only [] at h
      rcases Tabtxt_foldlM_mem sl tl incA incD incC _ _ entries [] rows r h hr with
        h1 | ⟨e, _, rs, hrs, hr2⟩
      · simp at h1
      · exact Tabtxt_processEntry_row_length sl tl incA incD incC _ _ e rs r hrs hr2
  · intro incT incH d
    have h1 : ¬ (pys ("termType") = pys ("partOfSpeech")) := by decide
    have h2 : ¬ (pys ("normativeAuthorization") = pys ("partOfSpeech")) := by decide
    simp only [TBXGUI.buildTig, Bool.false_and, List.filter_append]
    simp only [Bool.false_eq_true, if_false, List.filter_nil, List.nil_append]
    split <;> simp [List.filter_cons, h1, h2] <;> intro a b _ _ ha _ <;>
      subst ha <;> first | exact h1 | exact h2
  · intro incC incH d
    have h1 : ¬ (pys ("partOfSpeech") = pys ("termType")) := by decide
    have h2 : ¬ (pys ("normativeAuthorization") = pys ("termType")) := by decide
    simp only [TBXGUI.buildTig, Bool.false_and, List.filter_append]
    simp only [Bool.false_eq_true, if_false, List.filter_nil]
    split <;> simp [List.filter_cons, h1, h2] <;> intro a b _ _ ha _ <;>
      subst ha <;> first | exact h1 | exact h2
  · intro incC incT d
    have h1 : ¬ (pys ("partOfSpeech") = pys ("normativeAuthorization")) := by decide
    have h2 : ¬ (pys ("termType") = pys ("normativeAuthorization")) := by decide
    simp only [TBXGUI.buildTig, Bool.false_and, List.filter_append]
    simp only [Bool.false_eq_true, if_false, List.filter_nil, List.append_nil]
    split <;> simp [List.filter_cons, h1, h2] <;> intro a b _ _ ha _ <;>
      subst ha <;> first | exact h1 | exact h2
  · intro incC tfT jfT d h
    have e : d.type.isEmpty = false := by simp [h]
    have hpk : ¬ (pys ("partOfSpeech") = pys ("termType")) := by decide
    have hhk : ¬ (pys ("normativeAuthorization") = pys ("termType")) := by decide
    simp only [TBX.buildTig, e, Bool.or_true, Bool.and_true, Bool.not_false,
      if_true, List.filter_append]
    split <;> simp [List.filter_cons, hpk, hhk]
  · intro incC tfT jfT d h
    have e : d.hierarchy.isEmpty = false := by simp [h]
    have hpk : ¬ (pys ("partOfSpeech") = pys ("normativeAuthorization")) := by decide
    have htk : ¬ (pys ("termType") = pys ("normativeAuthorization")) := by decide
    simp only [TBX.buildTig, e, Bool.or_true, Bool.and_true, Bool.not_false,
      if_true, List.filter_append]
    split <;> simp [List.filter_cons, hpk, htk]

/-- Witness for `claim_C6_column_include_correspondence`: the membership
and output hypotheses are discharged on the concrete entry `fitxaC6`. -/
theorem claim_C6_witness :
    (∀ r : Row,
      r ∈ TabtxtGUI.xml_to_tsv [fitxaC6] (pys ("ca")) (pys ("es"))
          true false true false false none none none →
      r.length = 2 + bi true + bi false + bi true + bi false + bi false) ∧
    (∀ r : Row, r ∈ [rowC6] →
      r.length = 2 + (if true then 2 else 0) + bi false + bi false) ∧
    (TBX.buildTig false false false
        { term := pys ("gos"), category := [], type := pys ("principal"),
          hierarchy := [] }).notes.filter
        (fun n => n.1 = pys ("termType")) =
      [(pys ("termType"), pys ("principal"))] :=
  ⟨fun r hr => claim_C6_column_include_correspondence.1 [fitxaC6]
      (pys ("ca")) (pys ("es")) true false true false false none none none r hr,
   fun r hr => claim_C6_column_include_correspondence.2.1 [fitxaC6]
      (pys ("ca")) (pys ("es")) false false true none none [rowC6] r
      rfl hr,
   claim_C6_column_include_correspondence.2.2.2.2.2.1 false false false
      { term := pys ("gos"), category := [], type := pys ("principal"),
        hierarchy := [] } (by decide)⟩

/-- The langSet-emission condition of TO2TBX-GUI.py (line 194). -/
def exportCondGUI (incD : Bool) (definitions : List (List Char × List Char))
    (byLang : List (List Char × List ExtractedTerm)) (lang_code : List Char) : Bool :=
  !(dictGetD byLang lang_code []).isEmpty || (incD && dictMem definitions lang_code)

/-- The langSet-emission condition of TO2TBX.py (line 216). -/
def exportCondTBX (incD : Bool) (definitions : List (List Char × List Char))
    (byLang : List (List Char × List ExtractedTerm)) (lang_code : List Char) : Bool :=
  !(dictGetD byLang lang_code []).isEmpty ||
    (incD && !((dictGet definitions lang_code).getD []).isEmpty)

/-- The language of the langSet optionally produced by TO2TBX-GUI.py for a
language code. -/
theorem TBXGUI_mkLangSet_lang (incD incC incT incH : Bool)
    (defs : List (List Char × List Char))
    (byLang : List (List Char × List ExtractedTerm)) (l : List Char) :
    (TBXGUI.mkLangSet incD incC incT incH defs byLang l).map LangSetE.lang =
      if exportCondGUI incD defs byLang l then some l else none := by
  simp only [TBXGUI.mkLangSet, exportCondGUI]
  split <;> rfl

/-- The language of the langSet optionally produced by TO2TBX.py for a
language code. -/
theorem TBX_mkLangSet_lang (incD incC tfT jfT : Bool)
    (defs : List (List Char × List Char))
    (byLang : List (List Char × List ExtractedTerm)) (l : List Char) :
    (TBX.mkLangSet incD incC tfT jfT defs byLang l).map LangSetE.lang =
      if exportCondTBX incD defs byLang l then some l else none := by
  simp only [TBX.mkLangSet, exportCondTBX]
  split <;> rfl

/-- Keeping each element on which the predicate holds. -/
theorem filterMap_if_eq_filter {α : Type} (p : α → Bool) (L : List α) :
    L.filterMap (fun a => if p a then some a else none) = L.filter p := by
  induction L with
  | nil => rfl
  | cons a L' ih =>
    by_cases h : p a <;> simp [List.filterMap_cons, List.filter_cons, h, ih]

/-- After dropping a prefix on which `p` fails, a suffix on which `p` holds
remains. -/
theorem dropWhile_all_shape {α : Type} (p : α → Bool) (B : List α)
    (hB : ∀ c ∈ B, p c = true) :
    ∀ (A : List α), (∀ c ∈ A, p c = false) →
    ((A ++ B).dropWhile (fun c => !p c)).all p = true := by
  intro A
  induction A with
  | nil =>
    intro _
    cases B with
    | nil => rfl
    | cons b B' =>
      rw [List.nil_append, List.dropWhile_cons, hB b (by simp)]
      simp only [Bool.not_true, Bool.false_eq_true, if_false]
      exact List.all_eq_true.mpr hB
  | cons a A' ih =>
    intro hA
    rw [List.cons_append, List.dropWhile_cons, hA a (by simp)]
    simp only [Bool.not_false, if_true]
    exact ih (fun c hc => hA c (by simp [hc]))

/-- Projecting the term texts out of the tig children built by
TO2TBX-GUI.py. -/
theorem TBXGUI_tigTerms_map (incC incT incH : Bool) (ts : List ExtractedTerm) :
    (ts.map (fun d => LangChild.tig (TBXGUI.buildTig incC incT incH d))).filterMap
      langChildTerm = ts.map ExtractedTerm.term := by
  induction ts with
  | nil => rfl
  | cons d ts' ih =>
    rw [List.map_cons,
      List.filterMap_cons_some (f := langChildTerm)
        (a := LangChild.tig (TBXGUI.buildTig incC incT incH d))
        (b := (TBXGUI.buildTig incC incT incH d).term) rfl, ih, List.map_cons]
    rfl

/-- Projecting the term texts out of the tig children built by
TO2TBX.py. -/
theorem TBX_tigTerms_map (incC tfT jfT : Bool) (ts : List ExtractedTerm) :
    (ts.map (fun d => LangChild.tig (TBX.buildTig incC tfT jfT d))).filterMap
      langChildTerm = ts.map ExtractedTerm.term := by
  induction ts with
  | nil => rfl
  | cons d ts' ih =>
    rw [List.map_cons,
      List.filterMap_cons_some (f := langChildTerm)
        (a := LangChild.tig (TBX.buildTig incC tfT jfT d))
        (b := (TBX.buildTig incC tfT jfT d).term) rfl, ih, List.map_cons]
    rfl

/-- The langSet languages produced by TO2TBX-GUI.py for a list of language
codes are exactly the codes satisfying the emission condition, in the
order of the list. -/
theorem TBXGUI_langs_list (incD incC incT incH : Bool)
    (defs : List (List Char × List Char))
    (byLang : List (List Char × List ExtractedTerm)) (L : List (List Char)) :
    List.filterMap entryChildLang
      (L.filterMap (fun lang =>
        (TBXGUI.mkLangSet incD incC incT incH defs byLang lang).map
          EntryChild.langSet)) =
    L.filter (exportCondGUI incD defs byLang) := by
  induction L with
  | nil => rfl
  | cons l L' ih =>
    have hl := TBXGUI_mkLangSet_lang incD incC incT incH defs byLang l
    by_cases hc : exportCondGUI incD defs byLang l
    · rw [if_pos hc] at hl
      cases hmk : TBXGUI.mkLangSet incD incC incT incH defs byLang l with
      | none => rw [hmk] at hl; simp at hl
      | some ls =>
        rw [hmk] at hl
        simp only [Option.map_some', Option.some.injEq] at hl
        rw [List.filterMap_cons_some
          (f := fun lang => (TBXGUI.mkLangSet incD incC incT incH defs
            byLang lang).map EntryChild.langSet)
          (a := l) (b := EntryChild.langSet ls) (by simp [hmk])]
        rw [List.filterMap_cons_some (f := entryChildLang)
          (a := EntryChild.langSet ls) (b := ls.lang) rfl]
        rw [ih, List.filter_cons, if_pos (by exact hc)]
        rw [hl]
    · rw [if_neg hc] at hl
      cases hmk : TBXGUI.mkLangSet incD incC incT incH defs byLang l with
      | some ls => rw [hmk] at hl; simp at hl
      | none =>
        rw [List.filterMap_cons_none
          (f := fun lang => (TBXGUI.mkLangSet incD incC incT incH defs
            byLang lang).map EntryChild.langSet)
          (a := l) (by simp [hmk])]
        rw [ih, List.filter_cons, if_neg (by exact hc)]

/-- The langSet languages produced by TO2TBX.py for a list of language
codes are exactly the codes satisfying the emission condition, in the
order of the list. -/
theorem TBX_langs_list (incD incC tfT jfT : Bool)
    (defs : List (List Char × List Char))
    (byLang : List (List Char × List ExtractedTerm)) (L : List (List Char)) :
    List.filterMap entryChildLang
      (L.filterMap (fun lang =>
        (TBX.mkLangSet incD incC tfT jfT defs byLang lang).map
          EntryChild.langSet)) =
    L.filter (exportCondTBX incD defs byLang) := by
  induction L with
  | nil => rfl
  | cons l L' ih =>
    have hl := TBX_mkLangSet_lang incD incC tfT jfT defs byLang l
    by_cases hc : exportCondTBX incD defs byLang l
    · rw [if_pos hc] at hl
      cases hmk : TBX.mkLangSet incD incC tfT jfT defs byLang l with
      | none => rw [hmk] at hl; simp at hl
      | some ls =>
        rw [hmk] at hl
        simp only [Option.map_some', Option.some.injEq] at hl
        rw [List.filterMap_cons_some
          (f := fun lang => (TBX.mkLangSet incD incC tfT jfT defs
            byLang lang).map EntryChild.langSet)
          (a := l) (b := EntryChild.langSet ls) (by simp [hmk])]
        rw [List.filterMap_cons_some (f := entryChildLang)
          (a := EntryChild.langSet ls) (b := ls.lang) rfl]
        rw [ih, List.filter_cons, if_pos (by exact hc)]
        rw [hl]
    · rw [if_neg hc] at hl
      cases hmk : TBX.mkLangSet incD incC tfT jfT defs byLang l with
      | some ls => rw [hmk] at hl; simp at hl
      | none =>
        rw [List.filterMap_cons_none
          (f := fun lang => (TBX.mkLangSet incD incC tfT jfT defs
            byLang lang).map EntryChild.langSet)
          (a := l) (by simp [hmk])]
        rw [ih, List.filter_cons, if_neg (by exact hc)]

/-- C8 (amended): in TO2TBX-GUI.py the emitted `termEntry` is
deterministically ordered — entry-level metadata first, then one langSet
per emitted language in the configured order `[sl, tl]`, and inside each
langSet the definition annotation (if any) precedes the term groups, which
keep extraction order.  In TO2TBX.py the same holds EXCEPT that the
langSets follow the iteration order of the Python set
`normalized_languages` (here the parameter `iterOrder`), which the code
does not tie to the configured order. -/
theorem claim_C8_element_ordering :
    (∀ (sl tl : List Char) (incA incD incC incT incH : Bool) (x : Extracted),
      langsOfEntry (TBXGUI.buildTermEntry sl tl incA incD incC incT incH x) =
        [sl, tl].filter (exportCondGUI incD x.definitions x.byLang)) ∧
    (∀ (sl tl : List Char) (incA incD incC incT incH : Bool) (x : Extracted),
      metadataFirst
        (TBXGUI.buildTermEntry sl tl incA incD incC incT incH x).children = true) ∧
    (∀ (incD incC incT incH : Bool) (defs : List (List Char × List Char))
        (byLang : List (List Char × List ExtractedTerm)) (lang : List Char),
      (TBXGUI.mkLangSet incD incC incT incH defs byLang lang).elim True
        (fun ls => defnFirst ls.children = true ∧
          tigTermsOf ls.children =
            (dictGetD byLang lang []).map ExtractedTerm.term)) ∧
    (∀ (iterOrder : List (List Char)) (incA incD incC tfT jfT : Bool)
        (x : Extracted),
      langsOfEntry (TBX.buildTermEntry iterOrder incA incD incC tfT jfT x) =
        iterOrder.filter (exportCondTBX incD x.definitions x.byLang)) ∧
    (∀ (iterOrder : List (List Char)) (incA incD incC tfT jfT : Bool)
        (x : Extracted),
      metadataFirst
        (TBX.buildTermEntry iterOrder incA incD incC tfT jfT x).children = true) ∧
    (∀ (incD incC tfT jfT : Bool) (defs : List (List Char × List Char))
        (byLang : List (List Char × List ExtractedTerm)) (lang : List Char),
      (TBX.mkLangSet incD incC tfT jfT defs byLang lang).elim True
        (fun ls => defnFirst ls.children = true ∧
          tigTermsOf ls.children =
            (dictGetD byLang lang []).map ExtractedTerm.term)) := by
  refine ⟨?_, ?_, ?_, ?_, ?_, ?_⟩
  · intro sl tl incA incD incC incT incH x
    simp only [langsOfEntry, TBXGUI.buildTermEntry, List.filterMap_append]
    have hsubj : List.filterMap entryChildLang
        (if incA && !x.area.isEmpty then [EntryChild.subject x.area] else []) =
        [] := by split <;> rfl
    rw [hsubj, List.nil_append, TBXGUI_langs_list]
  · intro sl tl incA incD incC incT incH x
    simp only [metadataFirst, TBXGUI.buildTermEntry]
    apply dropWhile_all_shape
    · intro c hc
      rw [List.mem_filterMap] at hc
      obtain ⟨l, _, hfl⟩ := hc
      cases hmk : TBXGUI.mkLangSet incD incC incT incH x.definitions x.byLang l with
      | none => rw [hmk] at hfl; simp at hfl
      | some ls =>
        rw [hmk] at hfl
        simp only [Option.map_some', Option.some.injEq] at hfl
        rw [← hfl]
        rfl
    · intro c hc
      split at hc
      · rw [List.mem_singleton] at hc
        subst hc
        rfl
      · simp at hc
  · intro incD incC incT incH defs byLang lang
    simp only [TBXGUI.mkLangSet]
    split
    · simp only [Option.elim]
      constructor
      · apply dropWhile_all_shape
        · intro c hc
          rw [List.mem_map] at hc
          obtain ⟨d, _, hd⟩ := hc
          rw [← hd]
          rfl
        · intro c hc
          split at hc
          · rw [List.mem_singleton] at hc
            subst hc
            rfl
          · simp at hc
      · simp only [tigTermsOf, List.filterMap_append]
        have hdef : List.filterMap langChildTerm
            (if incD && dictMem defs lang && !(dictGetD defs lang []).isEmpty
             then [LangChild.defn (dictGetD defs lang [])] else []) = [] := by
          split <;> rfl
        rw [hdef, List.nil_append, TBXGUI_tigTerms_map]
    · simp only [Option.elim]
  · intro iterOrder incA incD incC tfT jfT x
    simp only [langsOfEntry, TBX.buildTermEntry, List.filterMap_append]
    have hsubj : List.filterMap entryChildLang
        (if incA && !x.area.isEmpty then [EntryChild.subject x.area] else []) =
        [] := by split <;> rfl
    rw [hsubj, List.nil_append, TBX_langs_list]
  · intro iterOrder incA incD incC tfT jfT x
    simp only [metadataFirst, TBX.buildTermEntry]
    apply dropWhile_all_shape
    · intro c hc
      rw [List.mem_filterMap] at hc
      obtain ⟨l, _, hfl⟩ := hc
      cases hmk : TBX.mkLangSet incD incC tfT jfT x.definitions x.byLang l with
      | none => rw [hmk] at hfl; simp at hfl
      | some ls =>
        rw [hmk] at hfl
        simp only [Option.map_some', Option.some.injEq] at hfl
        rw [← hfl]
        rfl
    · intro c hc
      split at hc
      · rw [List.mem_singleton] at hc
        subst hc
        rfl
      · simp at hc
  · intro incD incC tfT jfT defs byLang lang
    simp only [TBX.mkLangSet]
    split
    · simp only [Option.elim]
      constructor
      · apply dropWhile_all_shape
        · intro c hc
          rw [List.mem_map] at hc
          obtain ⟨d, _, hd⟩ := hc
          rw [← hd]
          rfl
        · intro c hc
          split at hc
          · rw [List.mem_singleton] at hc
            subst hc
            rfl
          · simp at hc
      · simp only [tigTermsOf, List.filterMap_append]
        have hdef : List.filterMap langChildTerm
            (if incD && !((dictGet defs lang).getD []).isEmpty
             then [LangChild.defn ((dictGet defs lang).getD [])] else []) = [] := by
          split <;> rfl
        rw [hdef, List.nil_append, TBX_tigTerms_map]
    · simp only [Option.elim]

/-- `Char.ofNat` round-trips through `toNat` below the surrogate range. -/
theorem charToNat_ofNat {n : Nat} (h : n < 55296) : (Char.ofNat n).toNat = n := by
  have hv : n.isValidChar := Or.inl h
  rw [Char.ofNat, dif_pos hv]
  rfl

/-- Lowercasing does not turn a character into whitespace or back. -/
theorem isSpace_lowerChar (c : Char) : pyIsSpace (pyLowerChar c) = pyIsSpace c := by
  unfold pyLowerChar
  split
  · rename_i h
    have h32 : (Char.ofNat (c.toNat + 32)).toNat = c.toNat + 32 :=
      charToNat_ofNat (by omega)
    rw [Bool.eq_iff_iff]
    simp only [pyIsSpace, h32, Bool.or_eq_true, decide_eq_true_eq]
    omega
  · rfl

/-- Lowercasing a character is idempotent. -/
theorem lowerChar_idem (c : Char) : pyLowerChar (pyLowerChar c) = pyLowerChar c := by
  by_cases h : 65 ≤ c.toNat ∧ c.toNat ≤ 90
  · have hd : pyLowerChar c = Char.ofNat (c.toNat + 32) := by
      rw [pyLowerChar, if_pos h]
    have h32 : (Char.ofNat (c.toNat + 32)).toNat = c.toNat + 32 :=
      charToNat_ofNat (by omega)
    rw [hd, pyLowerChar, if_neg (by rw [h32]; omega)]
  · have hc : pyLowerChar c = c := by rw [pyLowerChar, if_neg h]
    rw [hc, hc]

/-- Dropping a satisfied prefix twice is the same as dropping it once. -/
theorem dropWhile_dropWhile {α : Type} (p : α → Bool) (l : List α) :
    (l.dropWhile p).dropWhile p = l.dropWhile p := by
  induction l with
  | nil => rfl
  | cons c cs ih =>
    by_cases h : p c
    · rw [List.dropWhile_cons_of_pos h, ih]
    · rw [List.dropWhile_cons_of_neg h, List.dropWhile_cons_of_neg h]

/-- The head surviving a `dropWhile` fails the predicate. -/
theorem head_dropWhile {α : Type} (p : α → Bool) (l : List α) (c : α)
    (h : (l.dropWhile p).head? = some c) : p c = false := by
  induction l with
  | nil => simp at h
  | cons a l ih =>
    by_cases ha : p a
    · rw [List.dropWhile_cons_of_pos ha] at h
      exact ih h
    · rw [List.dropWhile_cons_of_neg ha] at h
      simp only [List.head?_cons, Option.some.injEq] at h
      subst h
      exact Bool.not_eq_true _ ▸ ha

/-- A list whose head (if any) fails the predicate survives `dropWhile`. -/
theorem dropWhile_eq_self_of_head {α : Type} (p : α → Bool) (l : List α)
    (h : ∀ c, l.head? = some c → p c = false) : l.dropWhile p = l := by
  cases l with
  | nil => rfl
  | cons a l =>
    have := h a rfl
    rw [List.dropWhile_cons_of_neg (by simp [this])]

/-- Python `strip` is idempotent. -/
theorem pyStrip_idem (s : List Char) : pyStrip (pyStrip s) = pyStrip s := by
  by_cases hu : pyStrip s = []
  · rw [hu]
    rfl
  · have hsuffix : pyStrip s <:+ pyRStrip s := List.dropWhile_suffix _
    have hlast : (pyStrip s).getLast? = (pyRStrip s).getLast? := by
      obtain ⟨t, ht⟩ := hsuffix
      rw [← ht]
      exact (List.getLast?_append_of_ne_nil t hu).symm
    have hlast2 : (pyRStrip s).getLast? = (s.reverse.dropWhile pyIsSpace).head? := by
      unfold pyRStrip
      rw [List.getLast?_eq_head?_reverse, List.reverse_reverse]
    obtain ⟨c, hc⟩ := Option.isSome_iff_exists.mp (List.getLast?_isSome.mpr hu)
    have hpc : pyIsSpace c = false := by
      apply head_dropWhile pyIsSpace s.reverse
      rw [← hlast2, ← hlast]
      exact hc
    have h1 : pyRStrip (pyStrip s) = pyStrip s := by
      unfold pyRStrip
      rw [dropWhile_eq_self_of_head pyIsSpace (pyStrip s).reverse, List.reverse_reverse]
      intro d hd
      rw [List.head?_reverse, hc] at hd
      cases hd
      exact hpc
    show pyLStrip (pyRStrip (pyStrip s)) = pyStrip s
    rw [h1]
    exact dropWhile_dropWhile pyIsSpace (pyRStrip s)

/-- `dropWhile pyIsSpace` commutes with lowercasing. -/
theorem dropWhile_map_lower (l : List Char) :
    (l.map pyLowerChar).dropWhile pyIsSpace =
      (l.dropWhile pyIsSpace).map pyLowerChar := by
  induction l with
  | nil => rfl
  | cons c cs ih =>
    rw [List.map_cons]
    by_cases h : pyIsSpace c
    · rw [List.dropWhile_cons_of_pos (by rw [isSpace_lowerChar]; exact h),
        List.dropWhile_cons_of_pos h, ih]
    · rw [List.dropWhile_cons_of_neg (by rw [isSpace_lowerChar]; exact h),
        List.dropWhile_cons_of_neg h, List.map_cons]

/-- Python `strip` commutes with `lower`. -/
theorem pyStrip_lower (s : List Char) :
    pyStrip (pyLower s) = pyLower (pyStrip s) := by
  unfold pyStrip pyLStrip pyRStrip pyLower
  rw [← List.map_reverse, dropWhile_map_lower, ← List.map_reverse,
    dropWhile_map_lower]

/-- Python `lower` is idempotent. -/
theorem pyLower_idem (s : List Char) : pyLower (pyLower s) = pyLower s := by
  unfold pyLower
  rw [List.map_map]
  exact List.map_congr_left (fun c _ => lowerChar_idem c)

/-- `re.split` always produces at least one piece. -/
theorem reSplitAux_ne_nil (s : List Char) :
    ∀ (acc : List Char) (b : Bool), reSplitAux s acc b ≠ [] := by
  induction s with
  | nil =>
    intro acc b
    simp [reSplitAux]
  | cons c cs ih =>
    intro acc b
    unfold reSplitAux
    split
    · split
      · exact ih [] true
      · simp
    · exact ih (c :: acc) false

/-- C7: filter normalization returns `None` exactly when the input has no
non-blank token; otherwise it returns the set of stripped, lowercased
tokens (membership characterization, no duplicates); it is idempotent —
normalizing the result of a normalization returns that result unchanged;
and the GUI string variant is the list variant applied to the regex-split
tokens. -/
theorem claim_C7_normalizer :
    (∀ (l : List (List Char)),
      normalize_filter_list l = none ↔ ∀ f ∈ l, pyStrip f = []) ∧
    (∀ (l s : List (List Char)), normalize_filter_list l = some s →
      ∀ x, x ∈ s ↔ ∃ f ∈ l, pyStrip f ≠ [] ∧ x = pyLower (pyStrip f)) ∧
    (∀ (l s : List (List Char)), normalize_filter_list l = some s → s.Nodup) ∧
    (∀ (l s : List (List Char)), normalize_filter_list l = some s →
      normalize_filter_list s = some s) ∧
    (∀ (s : List Char),
      normalize_filter_str s =
        if s.isEmpty then none else normalize_filter_list (reSplitSep s)) := by
  refine ⟨?_, ?_, ?_, ?_, ?_⟩
  · intro l
    by_cases hl : l.isEmpty
    · unfold normalize_filter_list
      rw [if_pos hl]
      have : l = [] := by simpa using hl
      subst this
      simp
    · have hbody : normalize_filter_list l =
          if (((l.filter fun f => !(pyStrip f).isEmpty).map
              fun f => pyLower (pyStrip f)).dedup).isEmpty then none
          else some (((l.filter fun f => !(pyStrip f).isEmpty).map
              fun f => pyLower (pyStrip f)).dedup) := by
        unfold normalize_filter_list
        rw [if_neg hl]
      rw [hbody]
      split
      · rename_i hd
        simp only [List.isEmpty_eq_true, List.dedup_eq_nil, List.map_eq_nil_iff,
          List.filter_eq_nil_iff] at hd
        constructor
        · intro _ f hf
          simpa using hd f hf
        · intro _
          rfl
      · rename_i hd
        simp only [List.isEmpty_eq_true, List.dedup_eq_nil, List.map_eq_nil_iff,
          List.filter_eq_nil_iff] at hd
        constructor
        · intro h
          exact absurd h (by simp)
        · intro hall
          exfalso
          apply hd
          intro f hf
          simp [hall f hf]
  · intro l s h x
    unfold normalize_filter_list at h
    by_cases hl : l.isEmpty
    · rw [if_pos hl] at h
      cases h
    · rw [if_neg hl] at h
      by_cases hd : (((l.filter fun f => !(pyStrip f).isEmpty).map
          fun f => pyLower (pyStrip f)).dedup).isEmpty
      · rw [if_pos hd] at h
        cases h
      · rw [if_neg hd] at h
        simp only [Option.some.injEq] at h
        subst h
        simp only [List.mem_dedup, List.mem_map, List.mem_filter]
        constructor
        · rintro ⟨f, ⟨hfl, hq⟩, rfl⟩
          exact ⟨f, hfl, by simpa using hq, rfl⟩
        · rintro ⟨f, hfl, hne, rfl⟩
          exact ⟨f, ⟨hfl, by simpa using hne⟩, rfl⟩
  · intro l s h
    unfold normalize_filter_list at h
    by_cases hl : l.isEmpty
    · rw [if_pos hl] at h
      cases h
    · rw [if_neg hl] at h
      by_cases hd : (((l.filter fun f => !(pyStrip f).isEmpty).map
          fun f => pyLower (pyStrip f)).dedup).isEmpty
      · rw [if_pos hd] at h
        cases h
      · rw [if_neg hd] at h
        simp only [Option.some.injEq] at h
        subst h
        exact List.nodup_dedup _
  · intro l s h
    unfold normalize_filter_list at h
    by_cases hl : l.isEmpty
    · rw [if_pos hl] at h
      cases h
    · rw [if_neg hl] at h
      by_cases hd : (((l.filter fun f => !(pyStrip f).isEmpty).map
          fun f => pyLower (pyStrip f)).dedup).isEmpty
      · rw [if_pos hd] at h
        cases h
      · rw [if_neg hd] at h
        simp only [Option.some.injEq] at h
        have hsne : s.isEmpty = false := by
          rw [← h]
          simpa using hd
        have hnodup : s.Nodup := h ▸ List.nodup_dedup _
        have hmem : ∀ x ∈ s, pyStrip x = x ∧ x ≠ [] ∧ pyLower x = x := by
          intro x hx
          rw [← h, List.mem_dedup, List.mem_map] at hx
          obtain ⟨f, hf, hfx⟩ := hx
          subst hfx
          rw [List.mem_filter] at hf
          have hne : pyStrip f ≠ [] := by simpa using hf.2
          refine ⟨?_, ?_, ?_⟩
          · rw [pyStrip_lower, pyStrip_idem]
          · intro hempty
            apply hne
            exact List.map_eq_nil_iff.mp hempty
          · exact pyLower_idem (pyStrip f)
        unfold normalize_filter_list
        rw [if_neg (by simp [hsne])]
        have hfilter : s.filter (fun f => !(pyStrip f).isEmpty) = s := by
          rw [List.filter_eq_self]
          intro x hx
          rw [(hmem x hx).1]
          simpa using (hmem x hx).2.1
        have hmap : s.map (fun f => pyLower (pyStrip f)) = s := by
          have hpt : ∀ x ∈ s, pyLower (pyStrip x) = x := by
            intro x hx
            rw [(hmem x hx).1, (hmem x hx).2.2]
          calc s.map (fun f => pyLower (pyStrip f)) = s.map id :=
              List.map_congr_left (fun a ha => hpt a ha)
            _ = s := List.map_id s
        rw [hfilter, hmap, List.dedup_eq_self.mpr hnodup,
          if_neg (by simp [hsne])]
  · intro s
    by_cases h : s.isEmpty
    · rw [if_pos h]
      unfold normalize_filter_str
      rw [if_pos h]
    · have hre : (reSplitSep s).isEmpty = false :=
        List.isEmpty_eq_false.mpr (reSplitAux_ne_nil s [] false)
      rw [if_neg h]
      unfold normalize_filter_str normalize_filter_list
      rw [if_neg h, if_neg (show ¬((reSplitSep s).isEmpty = true) from by
        simp [hre])]

/-- Witness for `claim_C7_normalizer`: the hypotheses are discharged at the
concrete filter list `['N F', ' n f ', '']`. -/
theorem claim_C7_witness :
    (normalize_filter_list [[]] = none ↔ ∀ f ∈ [([] : List Char)], pyStrip f = []) ∧
    (∀ x, x ∈ [pys ("n f")] ↔
      ∃ f ∈ [pys ("N F"), pys (" n f "), []],
        pyStrip f ≠ [] ∧ x = pyLower (pyStrip f)) ∧
    List.Nodup [pys ("n f")] ∧
    normalize_filter_list [pys ("n f")] = some [pys ("n f")] :=
  ⟨claim_C7_normalizer.1 [[]],
   fun x => claim_C7_normalizer.2.1 [pys ("N F"), pys (" n f "), []]
      [pys ("n f")] (by decide) x,
   claim_C7_normalizer.2.2.1 [pys ("N F"), pys (" n f "), []] [pys ("n f")]
      (by decide),
   claim_C7_normalizer.2.2.2.1 [pys ("N F"), pys (" n f "), []] [pys ("n f")]
      (by decide)⟩
